import Mathlib

/-! go-vtm, package `stingray`: a verification development.

A shallow embedding of the Go package `stingray` (files `stingray.go`,
`resource.go`, `json_resource.go`, `node_stats.go`) and of the parts of the Go
standard library it calls (`strings`, `net/url`, `unicode/utf8`, `bytes`,
`encoding/json`, `net/http`), followed by theorems about the embedded code.

Conventions of the embedding:

* a Go `string` or `[]byte` is a sequence of bytes; it is a `List Char` here,
  the byte `b` being the character with code `b`, so that ASCII literals read
  as in the source;
* a Go pair `(value, err)` of which exactly one component is nil is an
  `Except`; a pair of which both can be non-nil is a pair of options, `none`
  standing for nil;
* a Go function that can dereference a nil pointer returns an `Outcome`,
  whose constructor `panicked` is the run-time panic;
* a method with a pointer receiver that writes to its receiver returns the new
  state of the receiver;
* machine integers are `Int` and `Nat`, with explicit wrap-around where the
  source can overflow; `int` is 64 bits wide;
* the standard library is modelled as of Go 1.22 (`url.Parse`,
  `URL.ResolveReference`, `URL.String`, `json.Marshal`, `json.Unmarshal`).
-/

namespace stingray

/-- A Go `string` or `[]byte`: a list of bytes, each written as the character of
the same code. -/
abbrev Str := List Char

/-- The result of running Go code that may panic. -/
inductive Outcome (α : Type) where
  | returned (a : α)
  | panicked
deriving DecidableEq, Repr

/-- Equality of Go results `(value, err)` written as `Except` is decidable. -/
instance instDecidableEqExcept {ε α : Type} [DecidableEq ε] [DecidableEq α] :
    DecidableEq (Except ε α)
  | .ok a, .ok b => if h : a = b then isTrue (by rw [h]) else isFalse (fun h' => h (by cases h'; rfl))
  | .error a, .error b =>
    if h : a = b then isTrue (by rw [h]) else isFalse (fun h' => h (by cases h'; rfl))
  | .ok _, .error _ => isFalse (fun h => by cases h)
  | .error _, .ok _ => isFalse (fun h => by cases h)

/-! ## Package `strings` (the functions used by `net/url`) -/

namespace strings

/-- Go `strings.HasPrefix`. -/
def HasPrefix (s p : Str) : Bool := p.isPrefixOf s

/-- Go `strings.HasSuffix`. -/
def HasSuffix (s p : Str) : Bool := p.reverse.isPrefixOf s.reverse

/-- Go `strings.IndexByte`. -/
def IndexByte (c : Char) : Str → Option Nat
  | [] => none
  | x :: xs => if x = c then some 0 else (IndexByte c xs).map (· + 1)

/-- Go `strings.Index` (for a non-empty `sub`; index 0 for an empty one). -/
def Index (sub : Str) : Str → Option Nat
  | [] => if sub = [] then some 0 else none
  | x :: xs => if sub.isPrefixOf (x :: xs) then some 0 else (Index sub xs).map (· + 1)

/-- Loop of `LastIndexByte`: `i` is the index of the head, `acc` the last hit so far. -/
def lastIndexByteAux (c : Char) : Str → Nat → Option Nat → Option Nat
  | [], _, acc => acc
  | x :: xs, i, acc => lastIndexByteAux c xs (i + 1) (if x = c then some i else acc)

/-- Go `strings.LastIndexByte`; `none` is Go's `-1`. -/
def LastIndexByte (c : Char) (s : Str) : Option Nat := lastIndexByteAux c s 0 none

/-- Go `strings.Cut` with a one-byte separator: the text before the first `c`,
the text after it, and whether `c` was found. -/
def Cut (c : Char) : Str → Str × Str × Bool
  | [] => ([], [], false)
  | x :: xs =>
    if x = c then ([], xs, true)
    else match Cut c xs with
      | (a, b, f) => (x :: a, b, f)

/-- Go `strings.Count` with a one-byte separator. -/
def Count (c : Char) (s : Str) : Nat := s.count c

/-- Go `strings.Contains` with a one-byte separator. -/
def ContainsByte (c : Char) (s : Str) : Bool := s.contains c

/-- Go `strings.ToLower` on ASCII letters (other bytes are kept). -/
def ToLower (s : Str) : Str :=
  s.map fun c => if 'A' ≤ c ∧ c ≤ 'Z' then Char.ofNat (c.toNat + 32) else c

end strings

/-! ## Package `net/url` -/

namespace url

/-- The errors of `url.Parse`. -/
inductive Err where
  | invalidControlCharacter
  | emptyURL
  | invalidURIForRequest
  | missingProtocolScheme
  | colonInFirstPathSegment
  | missingBracketInHost
  | invalidPort (port : Str)
  | invalidUserinfo
  | EscapeError (s : Str)
  | InvalidHostError (s : Str)
deriving DecidableEq, Repr

/-- The escaping modes of `net/url`. -/
inductive encoding where
  | encodePath
  | encodePathSegment
  | encodeHost
  | encodeZone
  | encodeUserPassword
  | encodeQueryComponent
  | encodeFragment
deriving DecidableEq, Repr

open encoding

/-- Go `ishex`. -/
def ishex (c : Char) : Bool :=
  ('0' ≤ c ∧ c ≤ '9') ∨ ('a' ≤ c ∧ c ≤ 'f') ∨ ('A' ≤ c ∧ c ≤ 'F')

/-- Go `unhex`. -/
def unhex (c : Char) : Nat :=
  if '0' ≤ c ∧ c ≤ '9' then c.toNat - '0'.toNat
  else if 'a' ≤ c ∧ c ≤ 'f' then c.toNat - 'a'.toNat + 10
  else if 'A' ≤ c ∧ c ≤ 'F' then c.toNat - 'A'.toNat + 10
  else 0

/-- The digit `upperhex[n]` of Go, for `n < 16`. -/
def upperhex (n : Nat) : Char :=
  if n < 10 then Char.ofNat ('0'.toNat + n) else Char.ofNat ('A'.toNat + (n - 10))

/-- Go `shouldEscape`: whether byte `c` must be escaped in the given mode. -/
def shouldEscape (c : Char) (mode : encoding) : Bool :=
  if ('a' ≤ c ∧ c ≤ 'z') ∨ ('A' ≤ c ∧ c ≤ 'Z') ∨ ('0' ≤ c ∧ c ≤ '9') then false
  else if (mode = encodeHost ∨ mode = encodeZone) ∧
      c ∈ ['!', '$', '&', '\'', '(', ')', '*', '+', ',', ';', '=', ':', '[', ']', '<', '>', '"'] then
    false
  else if c ∈ ['-', '_', '.', '~'] then false
  else if c ∈ ['$', '&', '+', ',', '/', ':', ';', '=', '?', '@'] ∧
      mode ∈ [encodePath, encodePathSegment, encodeUserPassword, encodeQueryComponent,
        encodeFragment] then
    match mode with
    | encodePath => c = '?'
    | encodePathSegment => c = '/' ∨ c = ';' ∨ c = ',' ∨ c = '?'
    | encodeUserPassword => c = '@' ∨ c = '/' ∨ c = '?' ∨ c = ':'
    | encodeQueryComponent => true
    | _ => false
  else if mode = encodeFragment ∧ c ∈ ['!', '(', ')', '*'] then false
  else true

/-- The first loop of Go `unescape`: checks that every `%` starts a well-formed
escape that the mode allows, and that host bytes are valid. -/
def unescapeCheck (mode : encoding) : Str → Except Err Unit
  | [] => .ok ()
  | '%' :: a :: b :: rest =>
    if !(ishex a && ishex b) then .error (.EscapeError ['%', a, b])
    else if mode = encodeHost ∧ unhex a < 8 ∧ ['%', a, b] ≠ ['%', '2', '5'] then
      .error (.EscapeError ['%', a, b])
    else if mode = encodeZone ∧ ['%', a, b] ≠ ['%', '2', '5'] ∧
        unhex a * 16 + unhex b ≠ ' '.toNat ∧
        shouldEscape (Char.ofNat (unhex a * 16 + unhex b)) encodeHost then
      .error (.EscapeError ['%', a, b])
    else unescapeCheck mode rest
  | '%' :: rest => .error (.EscapeError ('%' :: rest))
  | c :: rest =>
    if (mode = encodeHost ∨ mode = encodeZone) ∧ c.toNat < 128 ∧ shouldEscape c encodeHost then
      .error (.InvalidHostError [c])
    else unescapeCheck mode rest

/-- The second loop of Go `unescape`: replaces each `%XX` by the byte it denotes
(and `+` by a space in query-component mode). -/
def unescapeBytes (mode : encoding) : Str → Str
  | [] => []
  | '%' :: a :: b :: rest => Char.ofNat (unhex a * 16 + unhex b) :: unescapeBytes mode rest
  | c :: rest =>
    (if c = '+' ∧ mode = encodeQueryComponent then ' ' else c) :: unescapeBytes mode rest

/-- Go `unescape`. -/
def unescape (s : Str) (mode : encoding) : Except Err Str :=
  match unescapeCheck mode s with
  | .error e => .error e
  | .ok () => .ok (unescapeBytes mode s)

/-- Go `escape`. -/
def escape (s : Str) (mode : encoding) : Str :=
  s.flatMap fun c =>
    if shouldEscape c mode then
      if c = ' ' ∧ mode = encodeQueryComponent then ['+']
      else ['%', upperhex (c.toNat / 16 % 16), upperhex (c.toNat % 16)]
    else [c]

/-- Go `validEncoded`. -/
def validEncoded (s : Str) (mode : encoding) : Bool :=
  s.all fun c =>
    if c ∈ ['!', '$', '&', '\'', '(', ')', '*', '+', ',', ';', '=', ':', '@', '[', ']', '%'] then
      true
    else !shouldEscape c mode

/-- Go `url.Userinfo`. -/
structure Userinfo where
  username : Str
  password : Str
  passwordSet : Bool
deriving DecidableEq, Repr

/-- Go `url.URL`. -/
structure URL where
  Scheme : Str := []
  Opaque : Str := []
  User : Option Userinfo := none
  Host : Str := []
  Path : Str := []
  RawPath : Str := []
  OmitHost : Bool := false
  ForceQuery : Bool := false
  RawQuery : Str := []
  Fragment : Str := []
  RawFragment : Str := []
deriving DecidableEq, Repr

/-- Go `getScheme`, as a loop over the bytes left to read; `i` is the index of
the head of the third argument in `rawURL`. -/
def getSchemeAux (rawURL : Str) : Str → Nat → Except Err (Str × Str)
  | [], _ => .ok ([], rawURL)
  | c :: rest, i =>
    if ('a' ≤ c ∧ c ≤ 'z') ∨ ('A' ≤ c ∧ c ≤ 'Z') then getSchemeAux rawURL rest (i + 1)
    else if ('0' ≤ c ∧ c ≤ '9') ∨ c = '+' ∨ c = '-' ∨ c = '.' then
      if i = 0 then .ok ([], rawURL) else getSchemeAux rawURL rest (i + 1)
    else if c = ':' then
      if i = 0 then .error .missingProtocolScheme else .ok (rawURL.take i, rest)
    else .ok ([], rawURL)

/-- Go `getScheme`: splits off a leading `scheme:`. -/
def getScheme (rawURL : Str) : Except Err (Str × Str) := getSchemeAux rawURL rawURL 0

/-- Go `stringContainsCTLByte`. -/
def stringContainsCTLByte (s : Str) : Bool := s.any fun c => c.toNat < 32 ∨ c.toNat = 127

/-- Go `validOptionalPort`. -/
def validOptionalPort : Str → Bool
  | [] => true
  | c :: rest => c = ':' && rest.all fun b => '0' ≤ b ∧ b ≤ '9'

/-- Go `validUserinfo`. -/
def validUserinfo (s : Str) : Bool :=
  s.all fun r =>
    ('A' ≤ r ∧ r ≤ 'Z') ∨ ('a' ≤ r ∧ r ≤ 'z') ∨ ('0' ≤ r ∧ r ≤ '9') ∨
      r ∈ ['-', '.', '_', ':', '~', '!', '$', '&', '\'', '(', ')', '*', '+', ',', ';', '=', '%', '@']

/-- Go `parseHost`. -/
def parseHost (host : Str) : Except Err Str :=
  let plain : Except Err Str := unescape host encodeHost
  if strings.HasPrefix host ['['] then
    match strings.LastIndexByte ']' host with
    | none => .error .missingBracketInHost
    | some i =>
      if !validOptionalPort (host.drop (i + 1)) then .error (.invalidPort (host.drop (i + 1)))
      else
        match strings.Index ['%', '2', '5'] (host.take i) with
        | some zone =>
          match unescape (host.take zone) encodeHost with
          | .error e => .error e
          | .ok host1 =>
            match unescape ((host.take i).drop zone) encodeZone with
            | .error e => .error e
            | .ok host2 =>
              match unescape (host.drop i) encodeHost with
              | .error e => .error e
              | .ok host3 => .ok (host1 ++ host2 ++ host3)
        | none => plain
  else
    match strings.LastIndexByte ':' host with
    | some i =>
      if !validOptionalPort (host.drop i) then .error (.invalidPort (host.drop i)) else plain
    | none => plain

/-- Go `parseAuthority`. -/
def parseAuthority (authority : Str) : Except Err (Option Userinfo × Str) :=
  match strings.LastIndexByte '@' authority with
  | none =>
    match parseHost authority with
    | .error e => .error e
    | .ok host => .ok (none, host)
  | some i =>
    match parseHost (authority.drop (i + 1)) with
    | .error e => .error e
    | .ok host =>
      let userinfo := authority.take i
      if !validUserinfo userinfo then .error .invalidUserinfo
      else if !strings.ContainsByte ':' userinfo then
        match unescape userinfo encodeUserPassword with
        | .error e => .error e
        | .ok u => .ok (some ⟨u, [], false⟩, host)
      else
        match strings.Cut ':' userinfo with
        | (username, password, _) =>
          match unescape username encodeUserPassword with
          | .error e => .error e
          | .ok u =>
            match unescape password encodeUserPassword with
            | .error e => .error e
            | .ok p => .ok (some ⟨u, p, true⟩, host)

/-- Go `(*URL).setPath`. -/
def URL.setPath (u : URL) (p : Str) : Except Err URL :=
  match unescape p encodePath with
  | .error e => .error e
  | .ok path =>
    .ok { u with Path := path, RawPath := if p = escape path encodePath then [] else p }

/-- Go `(*URL).setFragment`. -/
def URL.setFragment (u : URL) (f : Str) : Except Err URL :=
  match unescape f encodeFragment with
  | .error e => .error e
  | .ok frag =>
    .ok { u with Fragment := frag,
                 RawFragment := if f = escape frag encodeFragment then [] else f }

/-- Go `parse`: a URL without its fragment. -/
def parse (rawURL : Str) (viaRequest : Bool) : Except Err URL :=
  if stringContainsCTLByte rawURL then .error .invalidControlCharacter
  else if rawURL = [] ∧ viaRequest then .error .emptyURL
  else if rawURL = ['*'] then .ok { Path := ['*'] }
  else
    match getScheme rawURL with
    | .error e => .error e
    | .ok (scheme, rest0) =>
      let scheme := strings.ToLower scheme
      let forceQuery : Bool := strings.HasSuffix rest0 ['?'] && strings.Count '?' rest0 = 1
      let rest : Str := if forceQuery then rest0.dropLast else (strings.Cut '?' rest0).1
      let rawQuery : Str := if forceQuery then [] else (strings.Cut '?' rest0).2.1
      let url : URL := { Scheme := scheme, ForceQuery := forceQuery, RawQuery := rawQuery }
      if !strings.HasPrefix rest ['/'] ∧ scheme ≠ [] then .ok { url with Opaque := rest }
      else if !strings.HasPrefix rest ['/'] ∧ viaRequest then .error .invalidURIForRequest
      else if !strings.HasPrefix rest ['/'] ∧
          strings.ContainsByte ':' (strings.Cut '/' rest).1 then
        .error .colonInFirstPathSegment
      else if (scheme ≠ [] ∨ (!viaRequest ∧ !strings.HasPrefix rest ['/', '/', '/'])) ∧
          strings.HasPrefix rest ['/', '/'] then
        let authority0 := rest.drop 2
        let authority :=
          match strings.IndexByte '/' authority0 with
          | some i => authority0.take i
          | none => authority0
        let rest' :=
          match strings.IndexByte '/' authority0 with
          | some i => authority0.drop i
          | none => []
        match parseAuthority authority with
        | .error e => .error e
        | .ok (user, host) => URL.setPath { url with User := user, Host := host } rest'
      else if scheme ≠ [] ∧ strings.HasPrefix rest ['/'] then
        URL.setPath { url with OmitHost := true } rest
      else URL.setPath url rest

/-- Go `url.Parse`. -/
def Parse (rawURL : Str) : Except Err URL :=
  match strings.Cut '#' rawURL with
  | (u, frag, _) =>
    match parse u false with
    | .error e => .error e
    | .ok url => if frag = [] then .ok url else URL.setFragment url frag

/-- Go `(*URL).EscapedPath`. -/
def URL.EscapedPath (u : URL) : Str :=
  if u.RawPath ≠ [] ∧ validEncoded u.RawPath encodePath ∧
      unescape u.RawPath encodePath = .ok u.Path then u.RawPath
  else if u.Path = ['*'] then ['*']
  else escape u.Path encodePath

/-- Go `(*URL).EscapedFragment`. -/
def URL.EscapedFragment (u : URL) : Str :=
  if u.RawFragment ≠ [] ∧ validEncoded u.RawFragment encodeFragment ∧
      unescape u.RawFragment encodeFragment = .ok u.Fragment then u.RawFragment
  else escape u.Fragment encodeFragment

/-- Go `(*Userinfo).String`. -/
def Userinfo.String (u : Userinfo) : Str :=
  escape u.username encodeUserPassword ++
    (if u.passwordSet then ':' :: escape u.password encodeUserPassword else [])

/-- Go `(*URL).String`. -/
def URL.String (u : URL) : Str :=
  let scheme : Str := if u.Scheme ≠ [] then u.Scheme ++ [':'] else []
  let rest : Str :=
    if u.Opaque ≠ [] then scheme ++ u.Opaque
    else
      let auth : Str :=
        if u.Scheme ≠ [] ∨ u.Host ≠ [] ∨ u.User.isSome then
          if u.OmitHost ∧ u.Host = [] ∧ u.User.isNone then []
          else
            (if u.Host ≠ [] ∨ u.Path ≠ [] ∨ u.User.isSome then ['/', '/'] else []) ++
            (match u.User with
              | some ui => ui.String ++ ['@']
              | none => []) ++
            (if u.Host ≠ [] then escape u.Host encodeHost else [])
        else []
      let path := u.EscapedPath
      let slash : Str :=
        if path ≠ [] ∧ path.head? ≠ some '/' ∧ u.Host ≠ [] then ['/'] else []
      let buf := scheme ++ auth ++ slash
      let dot : Str :=
        if buf = [] ∧ strings.ContainsByte ':' (strings.Cut '/' path).1 then ['.', '/'] else []
      buf ++ dot ++ path
  rest ++
    (if u.ForceQuery ∨ u.RawQuery ≠ [] then '?' :: u.RawQuery else []) ++
    (if u.Fragment ≠ [] then '#' :: u.EscapedFragment else [])

/-- The loop of Go `resolvePath` over the `/`-separated elements of the path:
`dst` is the text after the leading `/` written so far, `first` tells that no
element has been written since the last reset. Returns `dst` and the last
element seen. -/
def resolveElems : List Str → Str → Bool → Str → Str × Str
  | [], dst, _, last => (dst, last)
  | elem :: elems, dst, first, _ =>
    if elem = ['.'] then resolveElems elems dst false elem
    else if elem = ['.', '.'] then
      match strings.LastIndexByte '/' dst with
      | none => resolveElems elems [] true elem
      | some index => resolveElems elems (dst.take index) first elem
    else resolveElems elems (dst ++ (if first then [] else ['/']) ++ elem) false elem

/-- Go `resolvePath`: resolves `ref` against `base` and removes dot segments
(RFC 3986, sections 5.2.2 to 5.2.4). -/
def resolvePath (base ref : Str) : Str :=
  let full : Str :=
    if ref = [] then base
    else if ref.head? ≠ some '/' then
      (match strings.LastIndexByte '/' base with
        | some i => base.take (i + 1)
        | none => []) ++ ref
    else ref
  if full = [] then []
  else
    match resolveElems (full.splitOn '/') [] true [] with
    | (dst, last) =>
      let r : Str := '/' :: dst ++ (if last = ['.'] ∨ last = ['.', '.'] then ['/'] else [])
      if 1 < r.length ∧ r.get? 1 = some '/' then r.drop 1 else r

/-- Go `(*URL).setPath` where the standard library ignores its error. -/
def URL.setPathIgnoringError (u : URL) (p : Str) : URL :=
  match u.setPath p with
  | .ok u' => u'
  | .error _ => u

/-- Go `(*URL).ResolveReference`. -/
def URL.ResolveReference (u ref : URL) : URL :=
  let url : URL := if ref.Scheme = [] then { ref with Scheme := u.Scheme } else ref
  if ref.Scheme ≠ [] ∨ ref.Host ≠ [] ∨ ref.User.isSome then
    url.setPathIgnoringError (resolvePath ref.EscapedPath [])
  else if ref.Opaque ≠ [] then
    { url with User := none, Host := [], Path := [] }
  else
    let url : URL :=
      if ref.Path = [] ∧ !ref.ForceQuery ∧ ref.RawQuery = [] then
        if ref.Fragment = [] then
          { url with RawQuery := u.RawQuery, Fragment := u.Fragment,
                     RawFragment := u.RawFragment }
        else { url with RawQuery := u.RawQuery }
      else url
    if ref.Path = [] ∧ u.Opaque ≠ [] then
      { url with Opaque := u.Opaque, User := none, Host := [], Path := [] }
    else
      URL.setPathIgnoringError { url with Host := u.Host, User := u.User }
        (resolvePath u.EscapedPath ref.EscapedPath)

end url

/-! ## Package `unicode/utf8` -/

namespace utf8

/-- Go `utf8.RuneError`, the replacement character U+FFFD. -/
def RuneError : Nat := 0xFFFD

/-- Go `utf8.DecodeRune`: the first rune of `p` and its width in bytes; an
invalid or incomplete encoding gives `(RuneError, 1)`, an empty input
`(RuneError, 0)`. -/
def DecodeRune : Str → Nat × Nat
  | [] => (RuneError, 0)
  | p0 :: rest =>
    let b0 := p0.toNat
    if b0 < 0x80 then (b0, 1)
    else if b0 < 0xC2 ∨ 0xF4 < b0 then (RuneError, 1)
    else
      let sz : Nat := if b0 < 0xE0 then 2 else if b0 < 0xF0 then 3 else 4
      let lo : Nat := if b0 = 0xE0 then 0xA0 else if b0 = 0xF0 then 0x90 else 0x80
      let hi : Nat := if b0 = 0xED then 0x9F else if b0 = 0xF4 then 0x8F else 0xBF
      match rest with
      | [] => (RuneError, 1)
      | p1 :: rest1 =>
        let b1 := p1.toNat
        if rest.length + 1 < sz then (RuneError, 1)
        else if b1 < lo ∨ hi < b1 then (RuneError, 1)
        else if sz = 2 then (b0 % 32 * 64 + b1 % 64, 2)
        else
          match rest1 with
          | [] => (RuneError, 1)
          | p2 :: rest2 =>
            let b2 := p2.toNat
            if b2 < 0x80 ∨ 0xBF < b2 then (RuneError, 1)
            else if sz = 3 then (b0 % 16 * 4096 + b1 % 64 * 64 + b2 % 64, 3)
            else
              match rest2 with
              | [] => (RuneError, 1)
              | p3 :: _ =>
                let b3 := p3.toNat
                if b3 < 0x80 ∨ 0xBF < b3 then (RuneError, 1)
                else (b0 % 8 * 262144 + b1 % 64 * 4096 + b2 % 64 * 64 + b3 % 64, 4)

/-- Go `utf8.AppendRune` on an empty buffer: the UTF-8 encoding of rune `r`
(of U+FFFD if `r` is a surrogate or out of range). -/
def EncodeRune (r : Nat) : Str :=
  if r < 0x80 then [Char.ofNat r]
  else if r < 0x800 then [Char.ofNat (0xC0 + r / 64), Char.ofNat (0x80 + r % 64)]
  else if 0x10FFFF < r ∨ (0xD800 ≤ r ∧ r ≤ 0xDFFF) then
    [Char.ofNat 0xEF, Char.ofNat 0xBF, Char.ofNat 0xBD]
  else if r < 0x10000 then
    [Char.ofNat (0xE0 + r / 4096), Char.ofNat (0x80 + r / 64 % 64), Char.ofNat (0x80 + r % 64)]
  else
    [Char.ofNat (0xF0 + r / 262144), Char.ofNat (0x80 + r / 4096 % 64),
      Char.ofNat (0x80 + r / 64 % 64), Char.ofNat (0x80 + r % 64)]

end utf8

/-! ## Package `bytes` -/

namespace bytes

/-- The loop of `bytes.Replace`: `skip` counts the bytes of a matched `old`
that are still to be passed over. -/
def replaceAux {α : Type} [DecidableEq α] (old new : List α) : List α → Nat → List α
  | [], _ => []
  | _ :: xs, skip + 1 => replaceAux old new xs skip
  | x :: xs, 0 =>
    if old.isPrefixOf (x :: xs) then new ++ replaceAux old new xs (old.length - 1)
    else x :: replaceAux old new xs 0

/-- Go `bytes.Replace(s, old, new, -1)` for a non-empty `old` (the only use in
this package): every non-overlapping occurrence of `old`, found from the left,
is replaced by `new`. -/
def Replace {α : Type} [DecidableEq α] (s old new : List α) : List α := replaceAux old new s 0

/-- Go `bytes.Contains` for a non-empty `sub`: whether `sub` occurs in `s`. -/
def Contains {α : Type} [DecidableEq α] (sub : List α) : List α → Bool
  | [] => false
  | x :: xs => sub.isPrefixOf (x :: xs) || Contains sub xs

end bytes

/-! ## Package `encoding/json`: texts -/

namespace json

mutual
/-- A JSON value as the decoder of `encoding/json` reads it. A number keeps its
literal: the conversion to `float64` for an `interface{}` target is not modelled. -/
inductive Value where
  | null
  | bool (b : Bool)
  | number (lit : Str)
  | string (s : Str)
  | array (elems : Elems)
  | object (members : Members)
deriving DecidableEq
/-- The elements of a JSON array, in the order of the text. -/
inductive Elems where
  | nil
  | cons (v : Value) (rest : Elems)
deriving DecidableEq
/-- The members of a JSON object, in the order of the text. -/
inductive Members where
  | nil
  | cons (key : Str) (v : Value) (rest : Members)
deriving DecidableEq
end

/-- The errors of `json.Unmarshal`. `outOfFuel` is not an error of Go: it is the
answer of the recursive parser below when its bound on the steps is used up,
which does not happen under the bound `json.parse` sets (`parse_ne_outOfFuel`). -/
inductive Err where
  | SyntaxError
  | UnmarshalTypeError
  | outOfFuel
deriving DecidableEq, Repr

/-- Go `isSpace` of the scanner. -/
def isSpace (c : Char) : Bool := c = ' ' ∨ c = '\t' ∨ c = '\r' ∨ c = '\n'

/-- Skips the white space the scanner accepts between tokens. -/
def skipSpace : Str → Str
  | [] => []
  | c :: rest => if isSpace c then skipSpace rest else c :: rest

/-- The scanner inside a string literal, after its opening quote: the literal's
text up to the closing quote (escapes not yet replaced) and what follows it.
`none` is the scanner's error: a control character, a bad escape, or no closing
quote. -/
def scanString : Str → Option (Str × Str)
  | [] => none
  | '"' :: rest => some ([], rest)
  | '\\' :: 'u' :: a :: b :: c :: d :: rest =>
    if url.ishex a && url.ishex b && url.ishex c && url.ishex d then
      match scanString rest with
      | some (r, t) => some ('\\' :: 'u' :: a :: b :: c :: d :: r, t)
      | none => none
    else none
  | '\\' :: e :: rest =>
    if e ∈ ['b', 'f', 'n', 'r', 't', '\\', '/', '"'] then
      match scanString rest with
      | some (r, t) => some ('\\' :: e :: r, t)
      | none => none
    else none
  | c :: rest =>
    if c.toNat < 0x20 ∨ c = '\\' then none
    else
      match scanString rest with
      | some (r, t) => some (c :: r, t)
      | none => none

/-- A decimal digit. -/
def isDigit (c : Char) : Bool := '0' ≤ c ∧ c ≤ '9'

/-- The exponent part of a number, if any: `acc` is the literal read so far. -/
def scanExponent (acc : Str) (r : Str) : Option (Str × Str) :=
  match r with
  | e :: r1 =>
    if e = 'e' ∨ e = 'E' then
      let sign : Str :=
        match r1 with
        | '+' :: _ => ['+']
        | '-' :: _ => ['-']
        | _ => []
      let r2 := r1.drop sign.length
      if (r2.span isDigit).1 = [] then none
      else some (acc ++ e :: sign ++ (r2.span isDigit).1, (r2.span isDigit).2)
    else some (acc, r)
  | [] => some (acc, r)

/-- The fraction and exponent parts of a number, if any. -/
def scanFraction (acc : Str) (r : Str) : Option (Str × Str) :=
  match r with
  | '.' :: r1 =>
    if (r1.span isDigit).1 = [] then none
    else scanExponent (acc ++ '.' :: (r1.span isDigit).1) (r1.span isDigit).2
  | _ => scanExponent acc r

/-- The scanner on a number: its literal and what follows it. -/
def scanNumber (s : Str) : Option (Str × Str) :=
  let neg : Str :=
    match s with
    | '-' :: _ => ['-']
    | _ => []
  match s.drop neg.length with
  | '0' :: r => scanFraction (neg ++ ['0']) r
  | c :: r =>
    if '1' ≤ c ∧ c ≤ '9' then scanFraction (neg ++ c :: (r.span isDigit).1) (r.span isDigit).2
    else none
  | [] => none

/-- Four hexadecimal digits as a number (Go `getu4` after `\u`). -/
def getu4 (a b c d : Char) : Nat :=
  url.unhex a * 4096 + url.unhex b * 256 + url.unhex c * 16 + url.unhex d

/-- The loop of Go `unquoteBytes` on the text of a literal that the scanner has
accepted: escapes are replaced, invalid UTF-8 becomes U+FFFD. `skip` counts the
bytes still to be copied of a rune that was found valid. -/
def unquoteAux : Str → Nat → Str
  | [], _ => []
  | c :: rest, skip + 1 => c :: unquoteAux rest skip
  | '\\' :: 'u' :: a :: b :: c :: d :: '\\' :: 'u' :: e :: f :: g :: h :: rest, 0 =>
    let rr := getu4 a b c d
    let rr1 := getu4 e f g h
    if 0xD800 ≤ rr ∧ rr < 0xDC00 ∧ 0xDC00 ≤ rr1 ∧ rr1 < 0xE000 ∧
        url.ishex e ∧ url.ishex f ∧ url.ishex g ∧ url.ishex h then
      utf8.EncodeRune ((rr - 0xD800) * 1024 + (rr1 - 0xDC00) + 0x10000) ++ unquoteAux rest 0
    else
      utf8.EncodeRune (if 0xD800 ≤ rr ∧ rr < 0xE000 then utf8.RuneError else rr) ++
        unquoteAux ('\\' :: 'u' :: e :: f :: g :: h :: rest) 0
  | '\\' :: 'u' :: a :: b :: c :: d :: rest, 0 =>
    let rr := getu4 a b c d
    utf8.EncodeRune (if 0xD800 ≤ rr ∧ rr < 0xE000 then utf8.RuneError else rr) ++
      unquoteAux rest 0
  | '\\' :: e :: rest, 0 =>
    (match e with
      | 'b' => Char.ofNat 8
      | 'f' => Char.ofNat 12
      | 'n' => '\n'
      | 'r' => '\r'
      | 't' => '\t'
      | _ => e) :: unquoteAux rest 0
  | c :: rest, 0 =>
    if c.toNat < 0x80 then c :: unquoteAux rest 0
    else
      match utf8.DecodeRune (c :: rest) with
      | (_, 0) => c :: unquoteAux rest 0
      | (_, 1) => utf8.EncodeRune utf8.RuneError ++ unquoteAux rest 0
      | (_, size + 2) => c :: unquoteAux rest (size + 1)

/-- Go `unquote` on the text between the quotes of an accepted literal. -/
def unquote (raw : Str) : Str := unquoteAux raw 0

/-- Go `maxNestingDepth` of the scanner. -/
def maxNestingDepth : Nat := 10000

/-- The scanner and the decoder on a value that is neither an array nor an
object, at the head of the text: a string, `true`, `false`, `null` or a number.
`none` is the scanner's error. -/
def scanLiteral (s : Str) : Option (Value × Str) :=
  match s with
  | '"' :: rest =>
    match scanString rest with
    | some (raw, rest1) => some (.string (unquote raw), rest1)
    | none => none
  | 't' :: 'r' :: 'u' :: 'e' :: rest => some (.bool true, rest)
  | 'f' :: 'a' :: 'l' :: 's' :: 'e' :: rest => some (.bool false, rest)
  | 'n' :: 'u' :: 'l' :: 'l' :: rest => some (.null, rest)
  | s1 =>
    match scanNumber s1 with
    | some (lit, rest) => some (.number lit, rest)
    | none => none

mutual
/-- Reads one JSON value at the head of the text, white space before it
skipped; `depth` is the number of arrays and objects around it. -/
def parseValue : Nat → Nat → Str → Except Err (Value × Str)
  | 0, _, _ => .error .outOfFuel
  | fuel + 1, depth, s =>
    match skipSpace s with
    | '{' :: rest =>
      if maxNestingDepth < depth + 1 then .error .SyntaxError
      else
        match skipSpace rest with
        | '}' :: rest1 => .ok (.object .nil, rest1)
        | rest1 =>
          match parseMembers fuel (depth + 1) rest1 with
          | .ok (ms, rest2) => .ok (.object ms, rest2)
          | .error e => .error e
    | '[' :: rest =>
      if maxNestingDepth < depth + 1 then .error .SyntaxError
      else
        match skipSpace rest with
        | ']' :: rest1 => .ok (.array .nil, rest1)
        | rest1 =>
          match parseElems fuel (depth + 1) rest1 with
          | .ok (es, rest2) => .ok (.array es, rest2)
          | .error e => .error e
    | s1 =>
      match scanLiteral s1 with
      | some (v, rest) => .ok (v, rest)
      | none => .error .SyntaxError
/-- Reads the members of an object up to its closing brace, starting at a key. -/
def parseMembers : Nat → Nat → Str → Except Err (Members × Str)
  | 0, _, _ => .error .outOfFuel
  | fuel + 1, depth, s =>
    match skipSpace s with
    | '"' :: rest =>
      match scanString rest with
      | none => .error .SyntaxError
      | some (rawKey, rest1) =>
        match skipSpace rest1 with
        | ':' :: rest2 =>
          match parseValue fuel depth rest2 with
          | .error e => .error e
          | .ok (v, rest3) =>
            match skipSpace rest3 with
            | '}' :: rest4 => .ok (.cons (unquote rawKey) v .nil, rest4)
            | ',' :: rest4 =>
              match parseMembers fuel depth rest4 with
              | .error e => .error e
              | .ok (ms, rest5) => .ok (.cons (unquote rawKey) v ms, rest5)
            | _ => .error .SyntaxError
        | _ => .error .SyntaxError
    | _ => .error .SyntaxError
/-- Reads the elements of an array up to its closing bracket. -/
def parseElems : Nat → Nat → Str → Except Err (Elems × Str)
  | 0, _, _ => .error .outOfFuel
  | fuel + 1, depth, s =>
    match parseValue fuel depth s with
    | .error e => .error e
    | .ok (v, rest1) =>
      match skipSpace rest1 with
      | ']' :: rest2 => .ok (.cons v .nil, rest2)
      | ',' :: rest2 =>
        match parseElems fuel depth rest2 with
        | .error e => .error e
        | .ok (es, rest3) => .ok (.cons v es, rest3)
      | _ => .error .SyntaxError
end

/-- The whole of a JSON text as one value: what `checkValid` accepts, read as a
tree. A value takes at most two steps of the parser for every byte it is
given, so the bound `2 * data.length + 1` is never used up
(`parse_ne_outOfFuel`). -/
def parse (data : Str) : Except Err Value :=
  match parseValue (2 * data.length + 1) 0 data with
  | .error e => .error e
  | .ok (v, rest) => if skipSpace rest = [] then .ok v else .error .SyntaxError

/-- Go `foldName`, as far as it matters for field names written in ASCII: ASCII
letters are put in upper case, and the only other runes that fold to an ASCII
letter, U+017F (long s) and U+212A (Kelvin sign), are replaced by `S` and `K`.
A member key `k` selects the field named `n` when `foldName k = foldName n`. -/
def foldName : Str → Str
  | [] => []
  | '\xc5' :: '\xbf' :: rest => 'S' :: foldName rest
  | '\xe2' :: '\x84' :: '\xaa' :: rest => 'K' :: foldName rest
  | c :: rest => (if 'a' ≤ c ∧ c ≤ 'z' then Char.ofNat (c.toNat - 32) else c) :: foldName rest

/-- Whether member key `key` selects the struct field with JSON name `name`. -/
def keyIs (key name : Str) : Bool := foldName key = foldName name

/-- The number written by a sequence of decimal digits. -/
def digitsValue (ds : Str) : Nat := ds.foldl (fun n c => n * 10 + (c.toNat - '0'.toNat)) 0

/-- Go `strconv.ParseInt(lit, 10, 64)` on a JSON number literal: `none` when the
literal has a fraction or an exponent, or is out of the range of `int64`. -/
def parseInt64 (lit : Str) : Option Int :=
  let ds : Str := if lit.head? = some '-' then lit.drop 1 else lit
  if ds ≠ [] ∧ ds.all isDigit then
    let n : Int := if lit.head? = some '-' then -(digitsValue ds : Int) else (digitsValue ds : Int)
    if -(2 : Int) ^ 63 ≤ n ∧ n < (2 : Int) ^ 63 then some n else none
  else none

/-- Go `strconv.ParseUint(lit, 10, 64)` followed by `OverflowUint` for a target
of `bits` bits, on a JSON number literal. -/
def parseUint (bits : Nat) (lit : Str) : Option Nat :=
  if lit ≠ [] ∧ lit.all isDigit ∧ digitsValue lit < 2 ^ 64 ∧ digitsValue lit < 2 ^ bits then
    some (digitsValue lit)
  else none

/-- The decoder on a target of kind `string`: the new value of the target and
whether an `UnmarshalTypeError` is recorded. -/
def decodeString (v : Value) (old : Str) : Str × Bool :=
  match v with
  | .string s => (s, false)
  | .null => (old, false)
  | _ => (old, true)

/-- The decoder on a target of kind `int` or `int64` (both 64 bits wide). -/
def decodeInt (v : Value) (old : Int) : Int × Bool :=
  match v with
  | .number lit =>
    match parseInt64 lit with
    | some n => (n, false)
    | none => (old, true)
  | .null => (old, false)
  | _ => (old, true)

/-- The decoder on a target of kind `uint32`. -/
def decodeUint32 (v : Value) (old : Nat) : Nat × Bool :=
  match v with
  | .number lit =>
    match parseUint 32 lit with
    | some n => (n, false)
    | none => (old, true)
  | .null => (old, false)
  | _ => (old, true)

/-- Go `hex` of the encoder: a lower-case hexadecimal digit. -/
def hex (n : Nat) : Char :=
  if n < 10 then Char.ofNat ('0'.toNat + n) else Char.ofNat ('a'.toNat + (n - 10))

/-- Go `htmlSafeSet`: the ASCII bytes the encoder copies into a string literal
when it escapes HTML, as `json.Marshal` does. -/
def htmlSafe (c : Char) : Bool :=
  0x20 ≤ c.toNat ∧ c.toNat < 0x80 ∧ c ∉ ['"', '&', '<', '>', '\\']

/-- The loop of the encoder's `appendString` with `escapeHTML = true`, without
the quotes. `skip` counts the bytes of the current rune still to be passed
over, copied when `copy` holds. -/
def appendStringAux : Str → Nat → Bool → Str
  | [], _, _ => []
  | c :: rest, skip + 1, copy => (if copy then [c] else []) ++ appendStringAux rest skip copy
  | c :: rest, 0, _ =>
    if c.toNat < 0x80 then
      (if htmlSafe c then [c]
        else if c = '\\' ∨ c = '"' then ['\\', c]
        else if c.toNat = 8 then ['\\', 'b']
        else if c.toNat = 12 then ['\\', 'f']
        else if c = '\n' then ['\\', 'n']
        else if c = '\r' then ['\\', 'r']
        else if c = '\t' then ['\\', 't']
        else ['\\', 'u', '0', '0', hex (c.toNat / 16), hex (c.toNat % 16)]) ++
        appendStringAux rest 0 true
    else
      match utf8.DecodeRune (c :: rest) with
      | (_, 0) => c :: appendStringAux rest 0 true
      | (_, 1) => ['\\', 'u', 'f', 'f', 'f', 'd'] ++ appendStringAux rest 0 true
      | (r, size + 2) =>
        if r = 0x2028 ∨ r = 0x2029 then
          ['\\', 'u', '2', '0', '2', hex (r % 16)] ++ appendStringAux rest (size + 1) false
        else c :: appendStringAux rest (size + 1) true

/-- The encoder on a Go `string`: a JSON string literal in which `<`, `>` and
`&` are written as the escapes `\u003c`, `\u003e` and `\u0026`. -/
def appendString (src : Str) : Str := '"' :: appendStringAux src 0 true ++ ['"']

/-- The encoder on a Go signed integer (`strconv.AppendInt` in base 10). -/
def appendInt (n : Int) : Str :=
  if n < 0 then '-' :: Nat.toDigits 10 n.natAbs else Nat.toDigits 10 n.toNat

end json

/-! ## Package `net/http` -/

namespace http

/-- The body of a response as a reader: the bytes it yields and whether reading
ends with an error instead of the end of the stream. -/
structure Body where
  data : Str
  failed : Bool
deriving DecidableEq, Repr

/-- Go `http.Response` as `http.Client.Do` returns it, reduced to the fields
this package reads. A response that `http.Client.Do` returns without error has
a body, so `Body` is not optional. -/
structure Response where
  StatusCode : Int
  Body : Body
deriving DecidableEq, Repr

/-- Go `http.Response` as this package hands it on, with the same two fields.
`Body` is a field of interface type, which the JSON decoder can set to nil
through the pointer `ErrorResponse.Response`: `none` is nil. -/
structure ResponseState where
  StatusCode : Int
  Body : Option Body
deriving DecidableEq, Repr

/-- The state of a response as the transport has returned it. -/
def Response.state (resp : Response) : ResponseState :=
  { StatusCode := resp.StatusCode, Body := some resp.Body }

/-- Go `http.Request`, reduced to what this package sets: the `Authorization`
header written by `SetBasicAuth` is kept as the pair it encodes. -/
structure Request where
  Method : Str
  URL : url.URL
  Host : Str
  Body : Option Str
  Header : List (Str × Str)
  BasicAuth : Option (Str × Str)
deriving DecidableEq, Repr

/-- Go `http.Client`, as the function from a request to what `Do` returns. -/
abbrev Client := Request → Except Str Response

/-- Go `isTokenRune` on a byte (RFC 7230 token characters). -/
def isToken (c : Char) : Bool :=
  ('a' ≤ c ∧ c ≤ 'z') ∨ ('A' ≤ c ∧ c ≤ 'Z') ∨ ('0' ≤ c ∧ c ≤ '9') ∨
    c ∈ ['!', '#', '$', '%', '&', '\'', '*', '+', '-', '.', '^', '_', '|', '~', Char.ofNat 96]

/-- Go `validMethod`. -/
def validMethod (method : Str) : Bool := method ≠ [] ∧ method.all isToken

/-- Go `removeEmptyPort`. -/
def removeEmptyPort (host : Str) : Str :=
  let hasPort : Bool :=
    match strings.LastIndexByte ':' host, strings.LastIndexByte ']' host with
    | some i, some j => j < i
    | some _, none => true
    | none, _ => false
  if hasPort ∧ strings.HasSuffix host [':'] then host.dropLast else host

/-- The errors of `http.NewRequest`. -/
inductive RequestErr where
  | invalidMethod
  | parse (e : url.Err)
deriving DecidableEq, Repr

/-- Go `http.NewRequest`: the URL text is parsed again. -/
def NewRequest (method urlStr : Str) (body : Option Str) : Except RequestErr Request :=
  let method : Str := if method = [] then "GET".toList else method
  if !validMethod method then .error .invalidMethod
  else
    match url.Parse urlStr with
    | .error e => .error (.parse e)
    | .ok u =>
      .ok { Method := method, URL := { u with Host := removeEmptyPort u.Host },
            Host := removeEmptyPort u.Host, Body := body, Header := [], BasicAuth := none }

/-- Go `ioutil.ReadAll`: the bytes read, and whether reading failed. The slice
returned is never nil. -/
def ReadAll (b : Body) : Str × Bool := (b.data, b.failed)

/-- The reader once `ReadAll` has run over it. -/
def Body.drained (b : Body) : Body := { b with data := [] }

end http

/-! ## Package `stingray`: `stingray.go` -/

/-- Constant `baseConfigPath`. -/
def baseConfigPath : Str := "/api/tm/3.5/config/active/".toList

/-- Constant `baseStatsPath`. -/
def baseStatsPath : Str := "/api/tm/3.5/status/local_tm/statistics/".toList

/-- Go `type pathType int`. -/
abbrev pathType := Int

/-- Constant `configPath` (`iota` = 0). -/
def configPath : pathType := 0

/-- Constant `statsPath` (`iota` = 1). -/
def statsPath : pathType := 1

/-- The value of the pointer field `Response` of an `ErrorResponse`: nil, the
response `CheckResponse` was called on, or a response that the JSON decoder
has allocated (its status code is kept; it has no body). -/
inductive ResponseRef where
  | nil
  | given
  | fresh (StatusCode : Int)
deriving DecidableEq, Repr

/-- Go `ErrorResponse`. `ErrorInfo` is an `interface{}`: `none` is nil. -/
structure ErrorResponse where
  Response : ResponseRef
  ID : Str
  Text : Str
  ErrorInfo : Option json.Value
deriving DecidableEq

/-- Go `error` values that occur in this package. -/
inductive Error where
  | url (e : url.Err)
  | request (e : http.RequestErr)
  | unknownPathType
  | transport (msg : Str)
  | read
  | json (e : json.Err)
  | api (e : ErrorResponse)
  | resource (msg : Str)
deriving DecidableEq

/-- Go `Client`. -/
structure Client where
  Client : http.Client
  configURL : url.URL
  statsURL : url.URL
  Username : Str
  Password : Str

/-- Go `NewClient`. `DefaultClient` is `http.DefaultClient`. When `urlStr` does
not parse, `cu` is nil and reading `cu.Path` panics. -/
def NewClient (DefaultClient : http.Client) (httpClient : Option http.Client)
    (urlStr username password : Str) : Outcome Client :=
  let httpClient : http.Client :=
    match httpClient with
    | none => DefaultClient
    | some h => h
  match url.Parse urlStr with
  | .error _ => .panicked
  | .ok cu =>
    let su := cu
    if cu.Path = [] then
      match url.Parse baseConfigPath, url.Parse baseStatsPath with
      | .ok rel, .ok relStats =>
        .returned { Client := httpClient, configURL := cu.ResolveReference rel,
                    statsURL := su.ResolveReference relStats,
                    Username := username, Password := password }
      | _, _ => .panicked
    else
      match url.Parse "../../status/local_tm/statistics/".toList with
      | .ok relStats =>
        .returned { Client := httpClient, configURL := cu,
                    statsURL := su.ResolveReference relStats,
                    Username := username, Password := password }
      | .error _ => .panicked

/-- Go `(*Client).doMakeRequest`. Its result `(req, err)` is `(nil, err)` or
`(req, nil)`: `.error err` or `.ok req` here. -/
def Client.doMakeRequest (c : stingray.Client) (pathType : pathType) (method urlStr : Str)
    (body : Option Str) : Except Error http.Request :=
  match url.Parse urlStr with
  | .error err => .error (.url err)
  | .ok rel =>
    if pathType = configPath ∨ pathType = statsPath then
      let baseUrl : url.URL := if pathType = configPath then c.configURL else c.statsURL
      let u := baseUrl.ResolveReference rel
      match http.NewRequest method u.String body with
      | .error err => .error (.request err)
      | .ok req => .ok { req with BasicAuth := some (c.Username, c.Password) }
    else .error .unknownPathType

/-- Go `(*Client).NewRequest`. -/
def Client.NewRequest (c : stingray.Client) (method urlStr : Str) (body : Option Str) :
    Except Error http.Request :=
  c.doMakeRequest configPath method urlStr body

/-- The JSON decoder on one member of an object, for the struct
`http.Response` that the field `Response` points to. Of the fields of that
struct the two of `http.ResponseState` are followed. `StatusCode` is an `int`.
`Body` is an interface with methods: `null` sets it to nil; any other value
leaves it as it is (the decoder refuses the value for its type, or descends
into the reader the interface holds, whose type in `net/http` has no exported
field to write). A key that names another field (`Status`, `Header`,
`Request`, `TLS`, ...) is passed over here: what Go writes for it is not part
of `http.ResponseState`, and a value under `Request` or `TLS` that a type with
its own `UnmarshalJSON` refuses, which in Go ends the decoding at that member,
is not followed. -/
def decodeResponseMember (key : Str) (v : json.Value) (resp : http.ResponseState) :
    http.ResponseState :=
  if json.keyIs key "StatusCode".toList then
    { resp with StatusCode := (json.decodeInt v resp.StatusCode).1 }
  else if json.keyIs key "Body".toList then
    match v with
    | .null => { resp with Body := none }
    | _ => resp
  else resp

/-- The JSON decoder on the members of an object, in their order, for the
struct `http.Response` that the field `Response` points to. -/
def decodeResponseMembers : json.Members → http.ResponseState → http.ResponseState
  | .nil, resp => resp
  | .cons key v rest, resp => decodeResponseMembers rest (decodeResponseMember key v resp)

/-- The JSON decoder on one member of an object, for the target
`*ErrorResponse`; `resp` is the response the field `Response` was set to at the
start. The untagged exported field `Response` is a target like the tagged ones:
`null` sets the pointer to nil, an object is decoded into the response pointed
to; for any value but `null` a nil pointer is first set to a new response
(status code 0, no body), also when the value is then refused for its type. -/
def decodeErrorResponseMember (key : Str) (v : json.Value) :
    http.ResponseState × ErrorResponse → http.ResponseState × ErrorResponse
  | (resp, e) =>
      if json.keyIs key "Response".toList then
        match v with
        | .null => (resp, { e with Response := .nil })
        | .object ms =>
          match e.Response with
          | .given => (decodeResponseMembers ms resp, e)
          | .fresh code =>
            let new := decodeResponseMembers ms { StatusCode := code, Body := none }
            (resp, { e with Response := .fresh new.StatusCode })
          | .nil =>
            let new := decodeResponseMembers ms { StatusCode := 0, Body := none }
            (resp, { e with Response := .fresh new.StatusCode })
        | _ =>
          match e.Response with
          | .nil => (resp, { e with Response := .fresh 0 })
          | _ => (resp, e)
      else if json.keyIs key "error_id".toList then
        (resp, { e with ID := (json.decodeString v e.ID).1 })
      else if json.keyIs key "error_text".toList then
        (resp, { e with Text := (json.decodeString v e.Text).1 })
      else if json.keyIs key "error_info".toList then
        (resp, { e with ErrorInfo :=
          match v with
          | .null => none
          | _ => some v })
      else (resp, e)

/-- The JSON decoder on the members of an object, in their order, for the
target `*ErrorResponse`. -/
def decodeErrorResponseMembers :
    json.Members → http.ResponseState × ErrorResponse → http.ResponseState × ErrorResponse
  | .nil, st => st
  | .cons key v rest, st => decodeErrorResponseMembers rest (decodeErrorResponseMember key v st)

/-- Go `json.Unmarshal(data, errorResponse)`, its error dropped as
`CheckResponse` drops it: a text that is not valid JSON, or not an object,
changes nothing. -/
def unmarshalErrorResponse (data : Str) (st : http.ResponseState × ErrorResponse) :
    http.ResponseState × ErrorResponse :=
  match json.parse data with
  | .ok (.object ms) => decodeErrorResponseMembers ms st
  | _ => st

/-- Go `CheckResponse`. The first component is the response after the call:
its body has been read and the decoder may have written to it through the
pointer `errorResponse.Response`. The second is the `*ErrorResponse` returned
as `error`, `none` for nil. -/
def CheckResponse (resp : http.Response) : http.ResponseState × Option ErrorResponse :=
  if 200 ≤ resp.StatusCode ∧ resp.StatusCode ≤ 299 then (resp.state, none)
  else
    let errorResponse : ErrorResponse :=
      { Response := .given, ID := [], Text := [], ErrorInfo := none }
    match http.ReadAll resp.Body with
    | (data, failed) =>
      let resp : http.ResponseState :=
        { StatusCode := resp.StatusCode, Body := some resp.Body.drained }
      if !failed then
        match unmarshalErrorResponse data (resp, errorResponse) with
        | (resp, errorResponse) => (resp, some errorResponse)
      else (resp, some errorResponse)

/-- Go `(*Client).Do`: the response returned is the one the transport has
returned, in the state `CheckResponse` has left it in. -/
def Client.Do (c : stingray.Client) (req : http.Request) :
    Option http.ResponseState × Option Error :=
  match c.Client req with
  | .error err => (none, some (.transport err))
  | .ok resp =>
    match CheckResponse resp with
    | (resp, some err) => (some resp, some (.api err))
    | (resp, none) => (some resp, none)

/-! ## Package `stingray`: `resource.go` -/

/-- Go interface `Resourcer`, for resources whose state has type `ρ`. A method
with a pointer receiver that changes the resource returns its new state. -/
structure Resourcer (ρ : Type) where
  Name : ρ → Str
  setName : Str → ρ → ρ
  endpoint : ρ → Str
  pathType : ρ → pathType
  contentType : ρ → Str
  decode : Str → ρ → ρ × Option Error
  Bytes : ρ → Str

/-- Go `baseResource`. -/
structure baseResource where
  name : Str := []
  contentType : Str := []
deriving DecidableEq, Repr

/-- Go `(*baseResource).Name`. -/
def baseResource.Name (r : baseResource) : Str := r.name

/-- Go `(*baseResource).setName`. -/
def baseResource.setName (name : Str) (r : baseResource) : baseResource := { r with name := name }

/-- Go `configResource`. -/
structure configResource where
  baseResource : baseResource := {}
deriving DecidableEq, Repr

/-- Go `(*configResource).pathType`. -/
def configResource.pathType (_ : configResource) : pathType := configPath

/-- Go `statsResource`. -/
structure statsResource where
  baseResource : baseResource := {}
deriving DecidableEq, Repr

/-- Go `(*statsResource).pathType`. -/
def statsResource.pathType (_ : statsResource) : pathType := statsPath

/-! ## Package `stingray`: `json_resource.go` -/

/-- Go `jsonConfigResource`. -/
structure jsonConfigResource where
  configResource : configResource := {}
deriving DecidableEq, Repr

/-- Go `(*jsonConfigResource).contentType`. -/
def jsonConfigResource.contentType (_ : jsonConfigResource) : Str := "application/json".toList

/-- Go `jsonStatsResource`. -/
structure jsonStatsResource where
  statsResource : statsResource := {}
deriving DecidableEq, Repr

/-- Go `(*jsonStatsResource).contentType`. -/
def jsonStatsResource.contentType (_ : jsonStatsResource) : Str := "application/json".toList

/-! ## Package `stingray`: the verbs of `stingray.go` -/

/-- Go `fmt.Sprintf("%v/%v", r.endpoint(), r.Name())`. -/
def resourcePath {ρ : Type} (R : Resourcer ρ) (r : ρ) : Str := R.endpoint r ++ '/' :: R.Name r

/-- Go `(*Client).Get`: the resource after the call, and the pair returned.
Were `Do` to return `(nil, nil)`, or a response whose `Body` is nil, reading
`resp.Body` would panic. -/
def Client.Get {ρ : Type} (c : stingray.Client) (R : Resourcer ρ) (r : ρ) :
    Outcome (ρ × Option http.ResponseState × Option Error) :=
  match c.doMakeRequest (R.pathType r) "GET".toList (resourcePath R r) none with
  | .error err => .returned (r, none, some err)
  | .ok req =>
    match c.Do req with
    | (resp, some err) => .returned (r, resp, some err)
    | (none, none) => .panicked
    | (some resp, none) =>
      match resp.Body with
      | none => .panicked
      | some b =>
        match http.ReadAll b with
        | (body, failed) =>
          let resp : http.ResponseState := { resp with Body := some b.drained }
          if failed then .returned (r, some resp, some .read)
          else
            match R.decode body r with
            | (r, err) => .returned (r, some resp, err)

/-- Go `(*Client).Set`. The header is added to `req` before `err` is looked at:
when `NewRequest` has failed, `req` is nil and `req.Header` panics; when it has
not, `err` is nil and the test `err != nil` that follows is false. -/
def Client.Set {ρ : Type} (c : stingray.Client) (R : Resourcer ρ) (r : ρ) :
    Outcome (Option http.ResponseState × Option Error) :=
  match c.NewRequest "PUT".toList (resourcePath R r) (some (R.Bytes r)) with
  | .error _ => .panicked
  | .ok req =>
    let req : http.Request :=
      { req with Header := req.Header ++ [("Content-Type".toList, R.contentType r)] }
    .returned (c.Do req)

/-- Go `(*Client).Delete`. -/
def Client.Delete {ρ : Type} (c : stingray.Client) (R : Resourcer ρ) (r : ρ) :
    Option http.ResponseState × Option Error :=
  match c.NewRequest "DELETE".toList (resourcePath R r) none with
  | .error err => (none, some err)
  | .ok req => c.Do req

/-- The type `resourceList` of this package, whose file is not among the
sources: its zero value, its method `decode` and its method `names`. -/
structure resourceList (ι : Type) where
  zero : ι
  decode : Str → ι → ι × Option Error
  names : ι → List Str

/-- Go `(*Client).List`; `L` stands for the type `resourceList`. -/
def Client.List {ρ ι : Type} (c : stingray.Client) (L : resourceList ι) (R : Resourcer ρ) (r : ρ) :
    Outcome (Option (List Str) × Option http.ResponseState × Option Error) :=
  match c.NewRequest "GET".toList (R.endpoint r) none with
  | .error err => .returned (none, none, some err)
  | .ok req =>
    match c.Do req with
    | (resp, some err) => .returned (none, resp, some err)
    | (none, none) => .panicked
    | (some resp, none) =>
      match resp.Body with
      | none => .panicked
      | some b =>
        match http.ReadAll b with
        | (body, failed) =>
          let resp : http.ResponseState := { resp with Body := some b.drained }
          if failed then .returned (none, some resp, some .read)
          else
            match L.decode body L.zero with
            | (_, some err) => .returned (none, some resp, some err)
            | (rl, none) => .returned (some (L.names rl), some resp, none)

/-- Go `jsonMarshal`: `Marshal` is `json.Marshal` on the type of `v`, returning
its bytes (nil, here empty, on error) and its error. -/
def jsonMarshal {α : Type} (Marshal : α → Str × Option Error) (v : α) : Str × Option Error :=
  match Marshal v with
  | (b, err) =>
    let b := bytes.Replace b "\\u0026".toList "&".toList
    let b := bytes.Replace b "\\u003c".toList "<".toList
    let b := bytes.Replace b "\\u003e".toList ">".toList
    (b, err)

/-! ## Package `stingray`: `node_stats.go` -/

/-- Go `NodeStatistics`. `int` is taken to be 64 bits wide. -/
structure NodeStatistics where
  BytesIn : Int := 0
  BytesInHigh : Nat := 0
  BytesInLow : Nat := 0
  BytesOut : Int := 0
  BytesOutHigh : Nat := 0
  BytesOutLow : Nat := 0
  CurrentConnections : Int := 0
  CurrentRequests : Int := 0
  Errors : Int := 0
  Failures : Int := 0
  NewConnections : Int := 0
  PooledConnections : Int := 0
  Port : Int := 0
  MaxResponseTime : Int := 0
  MinResponseTime : Int := 0
  MeanResponseTime : Int := 0
  State : Str := []
  TotalConnections : Int := 0
deriving DecidableEq, Repr

/-- Go `NodeStats`: the embedded `jsonStatsResource` (tag `json:"-"`) and the
embedded `NodeStatistics` (tag `json:"statistics"`). -/
structure NodeStats where
  jsonStatsResource : jsonStatsResource := {}
  NodeStatistics : NodeStatistics := {}
deriving DecidableEq, Repr

/-- Go `(*NodeStats).endpoint`. -/
def NodeStats.endpoint (_ : NodeStats) : Str := "nodes/node".toList

/-- Go `json.Marshal` on a `NodeStatistics`: the fields in the order of the
struct, under the names of their tags. -/
def NodeStatistics.Marshal (s : NodeStatistics) : Str :=
  "\x7b\"bytes_from_node\":".toList ++ json.appendInt s.BytesIn ++
  ",\"bytes_from_node_hi\":".toList ++ json.appendInt s.BytesInHigh ++
  ",\"bytes_from_node_lo\":".toList ++ json.appendInt s.BytesInLow ++
  ",\"bytes_to_node\":".toList ++ json.appendInt s.BytesOut ++
  ",\"bytes_to_node_hi\":".toList ++ json.appendInt s.BytesOutHigh ++
  ",\"bytes_to_node_lo\":".toList ++ json.appendInt s.BytesOutLow ++
  ",\"current_conn\":".toList ++ json.appendInt s.CurrentConnections ++
  ",\"current_requests\":".toList ++ json.appendInt s.CurrentRequests ++
  ",\"errors\":".toList ++ json.appendInt s.Errors ++
  ",\"failures\":".toList ++ json.appendInt s.Failures ++
  ",\"new_conn\":".toList ++ json.appendInt s.NewConnections ++
  ",\"pooled_conn\":".toList ++ json.appendInt s.PooledConnections ++
  ",\"port\":".toList ++ json.appendInt s.Port ++
  ",\"response_max\":".toList ++ json.appendInt s.MaxResponseTime ++
  ",\"response_min\":".toList ++ json.appendInt s.MinResponseTime ++
  ",\"response_mean\":".toList ++ json.appendInt s.MeanResponseTime ++
  ",\"state\":".toList ++ json.appendString s.State ++
  ",\"total_conn\":".toList ++ json.appendInt s.TotalConnections ++ "\x7d".toList

/-- Go `json.Marshal` on a `*NodeStats`; it has no error on this type. -/
def NodeStats.Marshal (r : NodeStats) : Str × Option Error :=
  ("\x7b\"statistics\":".toList ++ r.NodeStatistics.Marshal ++ "\x7d".toList, none)

/-- Go `(*NodeStats).Bytes`. -/
def NodeStats.Bytes (r : NodeStats) : Str := (jsonMarshal NodeStats.Marshal r).1

/-- Go `(*NodeStats).String`. -/
def NodeStats.String (r : NodeStats) : Str := r.Bytes

/-- The JSON decoder on one member of an object, for the target
`NodeStatistics`: the member is decoded into the field its key selects, if
any; the flag tells whether an `UnmarshalTypeError` was recorded. -/
def decodeNodeStatisticsMember (key : Str) (v : json.Value) :
    NodeStatistics × Bool → NodeStatistics × Bool
  | (s, failed) =>
      if json.keyIs key "bytes_from_node".toList then
        ({ s with BytesIn := (json.decodeInt v s.BytesIn).1 },
          failed || (json.decodeInt v s.BytesIn).2)
      else if json.keyIs key "bytes_from_node_hi".toList then
        ({ s with BytesInHigh := (json.decodeUint32 v s.BytesInHigh).1 },
          failed || (json.decodeUint32 v s.BytesInHigh).2)
      else if json.keyIs key "bytes_from_node_lo".toList then
        ({ s with BytesInLow := (json.decodeUint32 v s.BytesInLow).1 },
          failed || (json.decodeUint32 v s.BytesInLow).2)
      else if json.keyIs key "bytes_to_node".toList then
        ({ s with BytesOut := (json.decodeInt v s.BytesOut).1 },
          failed || (json.decodeInt v s.BytesOut).2)
      else if json.keyIs key "bytes_to_node_hi".toList then
        ({ s with BytesOutHigh := (json.decodeUint32 v s.BytesOutHigh).1 },
          failed || (json.decodeUint32 v s.BytesOutHigh).2)
      else if json.keyIs key "bytes_to_node_lo".toList then
        ({ s with BytesOutLow := (json.decodeUint32 v s.BytesOutLow).1 },
          failed || (json.decodeUint32 v s.BytesOutLow).2)
      else if json.keyIs key "current_conn".toList then
        ({ s with CurrentConnections := (json.decodeInt v s.CurrentConnections).1 },
          failed || (json.decodeInt v s.CurrentConnections).2)
      else if json.keyIs key "current_requests".toList then
        ({ s with CurrentRequests := (json.decodeInt v s.CurrentRequests).1 },
          failed || (json.decodeInt v s.CurrentRequests).2)
      else if json.keyIs key "errors".toList then
        ({ s with Errors := (json.decodeInt v s.Errors).1 },
          failed || (json.decodeInt v s.Errors).2)
      else if json.keyIs key "failures".toList then
        ({ s with Failures := (json.decodeInt v s.Failures).1 },
          failed || (json.decodeInt v s.Failures).2)
      else if json.keyIs key "new_conn".toList then
        ({ s with NewConnections := (json.decodeInt v s.NewConnections).1 },
          failed || (json.decodeInt v s.NewConnections).2)
      else if json.keyIs key "pooled_conn".toList then
        ({ s with PooledConnections := (json.decodeInt v s.PooledConnections).1 },
          failed || (json.decodeInt v s.PooledConnections).2)
      else if json.keyIs key "port".toList then
        ({ s with Port := (json.decodeInt v s.Port).1 },
          failed || (json.decodeInt v s.Port).2)
      else if json.keyIs key "response_max".toList then
        ({ s with MaxResponseTime := (json.decodeInt v s.MaxResponseTime).1 },
          failed || (json.decodeInt v s.MaxResponseTime).2)
      else if json.keyIs key "response_min".toList then
        ({ s with MinResponseTime := (json.decodeInt v s.MinResponseTime).1 },
          failed || (json.decodeInt v s.MinResponseTime).2)
      else if json.keyIs key "response_mean".toList then
        ({ s with MeanResponseTime := (json.decodeInt v s.MeanResponseTime).1 },
          failed || (json.decodeInt v s.MeanResponseTime).2)
      else if json.keyIs key "state".toList then
        ({ s with State := (json.decodeString v s.State).1 },
          failed || (json.decodeString v s.State).2)
      else if json.keyIs key "total_conn".toList then
        ({ s with TotalConnections := (json.decodeInt v s.TotalConnections).1 },
          failed || (json.decodeInt v s.TotalConnections).2)
      else (s, failed)

/-- The JSON decoder on the members of an object, in their order, for the
target `NodeStatistics`. -/
def decodeNodeStatisticsMembers :
    json.Members → NodeStatistics × Bool → NodeStatistics × Bool
  | .nil, st => st
  | .cons key v rest, st =>
    decodeNodeStatisticsMembers rest (decodeNodeStatisticsMember key v st)

/-- The JSON decoder on the members of an object, for the target `NodeStats`:
its one field is `statistics`. -/
def decodeNodeStatsMembers : json.Members → NodeStats × Bool → NodeStats × Bool
  | .nil, st => st
  | .cons key v rest, (r, failed) =>
    decodeNodeStatsMembers rest <|
      if json.keyIs key "statistics".toList then
        match v with
        | .object ms =>
          ({ r with NodeStatistics := (decodeNodeStatisticsMembers ms (r.NodeStatistics, false)).1 },
            failed || (decodeNodeStatisticsMembers ms (r.NodeStatistics, false)).2)
        | .null => (r, failed)
        | _ => (r, true)
      else (r, failed)

/-- Go `(*NodeStats).decode`, that is `json.Unmarshal(data, &r)`: a text that is
not valid JSON changes nothing and is a `SyntaxError`; a value of the wrong
type is skipped and reported as an `UnmarshalTypeError` at the end. -/
def NodeStats.decode (data : Str) (r : NodeStats) : NodeStats × Option Error :=
  match json.parse data with
  | .error e => (r, some (.json e))
  | .ok (.object ms) =>
    match decodeNodeStatsMembers ms (r, false) with
    | (r, failed) => (r, if failed then some (.json .UnmarshalTypeError) else none)
  | .ok .null => (r, none)
  | .ok _ => (r, some (.json .UnmarshalTypeError))

/-- The methods of `*NodeStats` that make it a `Resourcer`; `Name`, `setName`,
`pathType` and `contentType` are those of the embedded structs. -/
def NodeStats.Resourcer : Resourcer NodeStats where
  Name r := r.jsonStatsResource.statsResource.baseResource.Name
  setName name r :=
    { r with jsonStatsResource :=
      { statsResource := { baseResource := r.jsonStatsResource.statsResource.baseResource.setName name } } }
  endpoint := NodeStats.endpoint
  pathType r := r.jsonStatsResource.statsResource.pathType
  contentType r := r.jsonStatsResource.contentType
  decode := NodeStats.decode
  Bytes := NodeStats.Bytes

/-- Go `NewNodeStats`. -/
def NewNodeStats (name : Str) : NodeStats := NodeStats.Resourcer.setName name {}

/-- The Go assignment `r.BytesOut = v`. -/
def NodeStats.setBytesOut (r : NodeStats) (v : Int) : NodeStats :=
  { r with NodeStatistics := { r.NodeStatistics with BytesOut := v } }

/-- The Go assignment `r.BytesIn = v`. -/
def NodeStats.setBytesIn (r : NodeStats) (v : Int) : NodeStats :=
  { r with NodeStatistics := { r.NodeStatistics with BytesIn := v } }

/-- The value of an integer wrapped into the range of `int64`. -/
def wrapInt64 (x : Int) : Int := (x + 2 ^ 63) % 2 ^ 64 - 2 ^ 63

/-- Go `(*Client).GetNodeStats`. The counters are put together in `int64`
arithmetic: the shift and the sum wrap around. -/
def Client.GetNodeStats (c : stingray.Client) (name : Str) :
    Outcome (Option NodeStats × Option http.ResponseState × Option Error) :=
  match c.Get NodeStats.Resourcer (NewNodeStats name) with
  | .panicked => .panicked
  | .returned (_, resp, some err) => .returned (none, resp, some err)
  | .returned (r, resp, none) =>
    let r := r.setBytesOut (wrapInt64 (wrapInt64 ((r.NodeStatistics.BytesOutHigh : Int) * 2 ^ 32) +
      (r.NodeStatistics.BytesOutLow : Int)))
    let r := r.setBytesIn (wrapInt64 (wrapInt64 ((r.NodeStatistics.BytesInHigh : Int) * 2 ^ 32) +
      (r.NodeStatistics.BytesInLow : Int)))
    .returned (some r, resp, none)

/-- The texts of the two base URLs of the client `NewClient` has returned:
`configURL.String()` and `statsURL.String()`. -/
def baseURLs (o : Outcome stingray.Client) : Outcome (Str × Str) :=
  match o with
  | .returned c => .returned (c.configURL.String, c.statsURL.String)
  | .panicked => .panicked

/-- A transport on which every request fails. -/
def refusing : http.Client := fun _ => .error "connection refused".toList

end stingray

namespace stingray

/-- A transport that answers every request with status `code` and body `body`. -/
def serving (code : Int) (body : Str) : http.Client :=
  fun _ => .ok { StatusCode := code, Body := { data := body, failed := false } }

/-- A transport that sends nothing and fails with the text of the URL it was
asked for, as the `*url.Error` of `http.Client.Do` carries it. -/
def echoing : http.Client := fun req => .error req.URL.String

/-- The client that `NewClient` makes from the root URL `http://host`, the
transport `t` and the credentials `admin`, `secret`. -/
def exampleClient (t : http.Client) : stingray.Client :=
  { Client := t
    configURL := { Scheme := "http".toList, Host := "host".toList, Path := baseConfigPath }
    statsURL := { Scheme := "http".toList, Host := "host".toList, Path := baseStatsPath }
    Username := "admin".toList
    Password := "secret".toList }

/-- The GET request that `exampleClient t` builds for the node statistics `n1`. -/
def exampleRequest : http.Request :=
  { Method := "GET".toList
    URL := { Scheme := "http".toList, Host := "host".toList,
             Path := "/api/tm/3.5/status/local_tm/statistics/nodes/node/n1".toList }
    Host := "host".toList
    Body := none
    Header := []
    BasicAuth := some ("admin".toList, "secret".toList) }

/-- The split byte counters and their sums in the statistics `GetNodeStats` has
returned: `(BytesInHigh, BytesInLow, BytesIn, BytesOutHigh, BytesOutLow, BytesOut)`. -/
def counters (o : Outcome (Option NodeStats × Option http.ResponseState × Option Error)) :
    Option (Nat × Nat × Int × Nat × Nat × Int) :=
  match o with
  | .returned (some r, _, none) =>
    some (r.NodeStatistics.BytesInHigh, r.NodeStatistics.BytesInLow, r.NodeStatistics.BytesIn,
      r.NodeStatistics.BytesOutHigh, r.NodeStatistics.BytesOutLow, r.NodeStatistics.BytesOut)
  | _ => none

/-- The four split counters of a `NodeStatistics` are in the range of their Go
type `uint32`. -/
def NodeStatistics.uint32Fields (s : NodeStatistics) : Prop :=
  s.BytesInHigh < 2 ^ 32 ∧ s.BytesInLow < 2 ^ 32 ∧ s.BytesOutHigh < 2 ^ 32 ∧ s.BytesOutLow < 2 ^ 32

/-- The loop of `unescapeHTML`: `skip` counts the bytes of a replaced sequence
that are still to be passed over. -/
def unescapeHTMLAux : Str → Nat → Str
  | [], _ => []
  | _ :: xs, skip + 1 => unescapeHTMLAux xs skip
  | x :: xs, 0 =>
    if "\\u0026".toList.isPrefixOf (x :: xs) then '&' :: unescapeHTMLAux xs 5
    else if "\\u003c".toList.isPrefixOf (x :: xs) then '<' :: unescapeHTMLAux xs 5
    else if "\\u003e".toList.isPrefixOf (x :: xs) then '>' :: unescapeHTMLAux xs 5
    else x :: unescapeHTMLAux xs 0

/-- The fix-up of the serializer as the specification words it: read from the
left, every occurrence of one of the six-byte sequences `\u0026`, `\u003c`,
`\u003e` is replaced by the byte `&`, `<`, `>` it stands for, in one pass. -/
def unescapeHTML (b : Str) : Str := unescapeHTMLAux b 0

/-- No member of the object has a key that selects the field `Response`. -/
def json.Members.noResponseKey : json.Members → Bool
  | .nil => true
  | .cons key _ rest => !json.keyIs key "Response".toList && noResponseKey rest

/-- A list decoder that finds no name, to stand for `resourceList` where its
behaviour does not matter. -/
def emptyList : resourceList Unit :=
  { zero := (), decode := fun _ _ => ((), none), names := fun _ => [] }

/-! ## Theorems -/

/-- The example client is the one `NewClient` returns for `http://host`. -/
theorem NewClient_exampleClient (DefaultClient t : http.Client) :
    NewClient DefaultClient (some t) "http://host".toList "admin".toList "secret".toList =
      .returned (exampleClient t) := rfl

/-! ### Base URLs (`NewClient`) -/

/-- C2, as stated, fails: for the root URL `http://host/` the path of the parsed
URL is `/`, not empty, so `NewClient` keeps `http://host/` as `configURL` and
resolves `../../status/local_tm/statistics/` against it. -/
theorem NewClient_root_with_slash :
    baseURLs (NewClient refusing none "http://host/".toList [] []) =
        .returned ("http://host/".toList, "http://host/status/local_tm/statistics/".toList) ∧
      baseURLs (NewClient refusing none "http://host/".toList [] []) ≠
        .returned ("http://host/api/tm/3.5/config/active/".toList,
          "http://host/api/tm/3.5/status/local_tm/statistics/".toList) := by
  decide

/-- C2, amended: for the root URL `http://host` (empty path), whatever the
transport and the credentials, `NewClient` returns a client whose `configURL` is
`http://host/api/tm/3.5/config/active/` and whose `statsURL` is
`http://host/api/tm/3.5/status/local_tm/statistics/`. -/
theorem NewClient_bare_host (DefaultClient : http.Client) (httpClient : Option http.Client)
    (username password : Str) :
    baseURLs (NewClient DefaultClient httpClient "http://host".toList username password) =
      .returned ("http://host/api/tm/3.5/config/active/".toList,
        "http://host/api/tm/3.5/status/local_tm/statistics/".toList) := by
  rfl

/-- C3: for the root URL `http://host/api/tm/3.5/config/active/`, `NewClient`
returns a client whose `configURL` is the parsed root, printed back as the same
text, and whose `statsURL` is `../../status/local_tm/statistics/` resolved
against it, that is `http://host/api/tm/3.5/status/local_tm/statistics/`: the
`statsURL` of the client made from the bare host `http://host`. -/
theorem NewClient_config_root (DefaultClient : http.Client) (httpClient : Option http.Client)
    (username password : Str) :
    ∃ c cu relStats,
      NewClient DefaultClient httpClient "http://host/api/tm/3.5/config/active/".toList
        username password = .returned c ∧
      url.Parse "http://host/api/tm/3.5/config/active/".toList = .ok cu ∧
      url.Parse "../../status/local_tm/statistics/".toList = .ok relStats ∧
      c.configURL = cu ∧
      c.configURL.String = "http://host/api/tm/3.5/config/active/".toList ∧
      c.statsURL = cu.ResolveReference relStats ∧
      c.statsURL.String = "http://host/api/tm/3.5/status/local_tm/statistics/".toList ∧
      baseURLs (NewClient DefaultClient httpClient "http://host".toList username password) =
        .returned ("http://host/api/tm/3.5/config/active/".toList, c.statsURL.String) :=
  ⟨_, _, _, rfl, rfl, rfl, rfl, rfl, rfl, rfl, rfl⟩

/-! ### The JSON parser (`json.parse`) -/

namespace json

/-- Skipping white space does not make a text longer. -/
theorem skipSpace_length (s : Str) : (skipSpace s).length ≤ s.length := by
  induction s with
  | nil => simp [skipSpace]
  | cons c rest ih =>
    simp only [skipSpace]; split
    · simp only [List.length_cons]; omega
    · exact Nat.le_refl _

/-- What `span` leaves is not longer than the text. -/
theorem span_snd_length (p : Char → Bool) (s : Str) : (s.span p).2.length ≤ s.length := by
  rw [List.span_eq_take_drop]
  exact (List.dropWhile_sublist p).length_le

/-- A string literal that the scanner accepts has taken its closing quote
from the text. -/
theorem scanString_length : ∀ (n : Nat) (s raw rest : Str), s.length ≤ n →
    scanString s = some (raw, rest) → rest.length < s.length := by
  intro n
  induction n with
  | zero =>
    intro s raw rest hn h
    cases s with
    | nil => simp [scanString] at h
    | cons c t => simp at hn
  | succ n ih =>
    intro s raw rest hn h
    unfold scanString at h
    split at h
    · simp at h
    · simp only [Option.some.injEq, Prod.mk.injEq] at h
      rw [← h.2]; simp
    · split at h
      · split at h
        · rename_i r t heq
          simp only [Option.some.injEq, Prod.mk.injEq] at h
          have := ih _ _ _ (by simp only [List.length_cons] at hn; omega) heq
          rw [← h.2]; simp only [List.length_cons]; omega
        · simp at h
      · simp at h
    · split at h
      · split at h
        · rename_i r t heq
          simp only [Option.some.injEq, Prod.mk.injEq] at h
          have := ih _ _ _ (by simp only [List.length_cons] at hn; omega) heq
          rw [← h.2]; simp only [List.length_cons]; omega
        · simp at h
      · simp at h
    · split at h
      · simp at h
      · split at h
        · rename_i r t heq
          simp only [Option.some.injEq, Prod.mk.injEq] at h
          have := ih _ _ _ (by simp only [List.length_cons] at hn; omega) heq
          rw [← h.2]; simp only [List.length_cons]; omega
        · simp at h

/-- The digits of an exponent, when there are some, leave a rest that is not
longer than the text. -/
theorem scanExponent_digits_length (k : Nat) (r1 lit rest X : Str)
    (h : (if ((r1.drop k).span isDigit).1 = [] then none
      else some (X, ((r1.drop k).span isDigit).2)) = some (lit, rest)) :
    rest.length ≤ r1.length := by
  split at h
  · simp at h
  · simp only [Option.some.injEq, Prod.mk.injEq] at h
    rw [← h.2]
    refine Nat.le_trans (span_snd_length _ _) ?_
    simp only [List.length_drop]; omega

/-- The exponent part of a number leaves a rest that is not longer than the
text. -/
theorem scanExponent_length (acc r lit rest : Str) (h : scanExponent acc r = some (lit, rest)) :
    rest.length ≤ r.length := by
  unfold scanExponent at h
  split at h
  · split at h
    · have := scanExponent_digits_length _ _ _ _ _ h
      simp only [List.length_cons]; omega
    · simp only [Option.some.injEq, Prod.mk.injEq] at h
      rw [← h.2]
  · simp only [Option.some.injEq, Prod.mk.injEq] at h
    rw [← h.2]

/-- The fraction and exponent parts of a number leave a rest that is not longer
than the text. -/
theorem scanFraction_length (acc r lit rest : Str) (h : scanFraction acc r = some (lit, rest)) :
    rest.length ≤ r.length := by
  unfold scanFraction at h
  split at h
  · split at h
    · simp at h
    · have := scanExponent_length _ _ _ _ h
      refine Nat.le_trans this (Nat.le_trans (span_snd_length _ _) ?_)
      simp
  · exact scanExponent_length _ _ _ _ h

/-- A number that the scanner accepts has taken at least one byte. -/
theorem scanNumber_length (s lit rest : Str) (h : scanNumber s = some (lit, rest)) :
    rest.length < s.length := by
  unfold scanNumber at h
  simp only at h
  split at h
  · rename_i r heq
    have h1 := scanFraction_length _ _ _ _ h
    have h2 : (List.drop _ s).length = _ := congrArg List.length heq
    simp only [List.length_drop, List.length_cons] at h2
    omega
  · rename_i c r _ heq
    split at h
    · have h1 := scanFraction_length _ _ _ _ h
      have h3 := span_snd_length isDigit r
      have h2 : (List.drop _ s).length = _ := congrArg List.length heq
      simp only [List.length_drop, List.length_cons] at h2
      omega
    · simp at h
  · simp at h

/-- A string, `true`, `false`, `null` or number that the scanner accepts has
taken at least one byte. -/
theorem scanLiteral_length (s : Str) (v : Value) (rest : Str) (h : scanLiteral s = some (v, rest)) :
    rest.length < s.length := by
  unfold scanLiteral at h
  split at h
  · split at h
    · rename_i raw rest1 heq
      simp only [Option.some.injEq, Prod.mk.injEq] at h
      have := scanString_length _ _ _ _ (Nat.le_refl _) heq
      rw [← h.2]; simp only [List.length_cons]; omega
    · simp at h
  · simp only [Option.some.injEq, Prod.mk.injEq] at h
    rw [← h.2]; simp only [List.length_cons]; omega
  · simp only [Option.some.injEq, Prod.mk.injEq] at h
    rw [← h.2]; simp only [List.length_cons]; omega
  · simp only [Option.some.injEq, Prod.mk.injEq] at h
    rw [← h.2]; simp only [List.length_cons]; omega
  · split at h
    · rename_i lit rest1 heq
      simp only [Option.some.injEq, Prod.mk.injEq] at h
      have := scanNumber_length _ _ _ heq
      rw [← h.2]; exact this
    · simp at h

/-- The rest after the first byte that is not white space is shorter than the
text. -/
theorem skipSpace_cons_length {s : Str} {c : Char} {rest : Str} (h : skipSpace s = c :: rest) :
    rest.length < s.length := by
  have := skipSpace_length s
  rw [h] at this
  simp only [List.length_cons] at this
  omega

/-- A value, the members of an object and the elements of an array that the
parser has read have each taken at least one byte. -/
theorem parse_progress : ∀ fuel : Nat,
    (∀ depth s v rest, parseValue fuel depth s = .ok (v, rest) → rest.length < s.length) ∧
    (∀ depth s ms rest, parseMembers fuel depth s = .ok (ms, rest) → rest.length < s.length) ∧
    (∀ depth s es rest, parseElems fuel depth s = .ok (es, rest) → rest.length < s.length) := by
  intro fuel
  induction fuel with
  | zero =>
    refine ⟨?_, ?_, ?_⟩
    · intro depth s v rest h; simp [parseValue] at h
    · intro depth s v rest h; simp [parseMembers] at h
    · intro depth s v rest h; simp [parseElems] at h
  | succ fuel ih =>
    obtain ⟨ihV, ihM, ihE⟩ := ih
    refine ⟨?_, ?_, ?_⟩
    · intro depth s v rest h
      rw [parseValue] at h
      split at h
      · rename_i r0 h0
        have l0 := skipSpace_cons_length h0
        split at h
        · simp at h
        · split at h
          · rename_i r1 h1
            have l1 := skipSpace_cons_length h1
            simp only [Except.ok.injEq, Prod.mk.injEq] at h
            rw [← h.2]; omega
          · split at h
            · rename_i ms r2 h2
              have l2 := ihM _ _ _ _ h2
              have l1 := skipSpace_length r0
              simp only [Except.ok.injEq, Prod.mk.injEq] at h
              rw [← h.2]; omega
            · simp at h
      · rename_i r0 h0
        have l0 := skipSpace_cons_length h0
        split at h
        · simp at h
        · split at h
          · rename_i r1 h1
            have l1 := skipSpace_cons_length h1
            simp only [Except.ok.injEq, Prod.mk.injEq] at h
            rw [← h.2]; omega
          · split at h
            · rename_i es r2 h2
              have l2 := ihE _ _ _ _ h2
              have l1 := skipSpace_length r0
              simp only [Except.ok.injEq, Prod.mk.injEq] at h
              rw [← h.2]; omega
            · simp at h
      · split at h
        · rename_i v1 r1 h1
          have l1 := scanLiteral_length _ _ _ h1
          have l0 := skipSpace_length s
          simp only [Except.ok.injEq, Prod.mk.injEq] at h
          rw [← h.2]; omega
        · simp at h
    · intro depth s ms rest h
      rw [parseMembers] at h
      split at h
      · rename_i r0 h0
        have l0 := skipSpace_cons_length h0
        split at h
        · simp at h
        · rename_i key r1 h1
          have l1 := scanString_length _ _ _ _ (Nat.le_refl _) h1
          split at h
          · rename_i r2 h2
            have l2 := skipSpace_cons_length h2
            split at h
            · simp at h
            · rename_i v r3 h3
              have l3 := ihV _ _ _ _ h3
              split at h
              · rename_i r4 h4
                have l4 := skipSpace_cons_length h4
                simp only [Except.ok.injEq, Prod.mk.injEq] at h
                rw [← h.2]; omega
              · rename_i r4 h4
                have l4 := skipSpace_cons_length h4
                split at h
                · simp at h
                · rename_i ms1 r5 h5
                  have l5 := ihM _ _ _ _ h5
                  simp only [Except.ok.injEq, Prod.mk.injEq] at h
                  rw [← h.2]; omega
              · simp at h
          · simp at h
      · simp at h
    · intro depth s es rest h
      rw [parseElems] at h
      split at h
      · simp at h
      · rename_i v r1 h1
        have l1 := ihV _ _ _ _ h1
        split at h
        · rename_i r2 h2
          have l2 := skipSpace_cons_length h2
          simp only [Except.ok.injEq, Prod.mk.injEq] at h
          rw [← h.2]; omega
        · rename_i r2 h2
          have l2 := skipSpace_cons_length h2
          split at h
          · simp at h
          · rename_i es1 r3 h3
            have l3 := ihE _ _ _ _ h3
            simp only [Except.ok.injEq, Prod.mk.injEq] at h
            rw [← h.2]; omega
        · simp at h

/-- The parser does not run out of steps when it is given two for every byte of
the text and one more for a value, two more for members or elements. -/
theorem parse_fuel : ∀ fuel : Nat,
    (∀ depth s, 2 * s.length + 1 ≤ fuel → parseValue fuel depth s ≠ .error .outOfFuel) ∧
    (∀ depth s, 2 * s.length + 2 ≤ fuel → parseMembers fuel depth s ≠ .error .outOfFuel) ∧
    (∀ depth s, 2 * s.length + 2 ≤ fuel → parseElems fuel depth s ≠ .error .outOfFuel) := by
  intro fuel
  induction fuel with
  | zero =>
    refine ⟨?_, ?_, ?_⟩
    · intro depth s h; omega
    · intro depth s h; omega
    · intro depth s h; omega
  | succ fuel ih =>
    obtain ⟨ihV, ihM, ihE⟩ := ih
    obtain ⟨pV, pM, pE⟩ := parse_progress fuel
    refine ⟨?_, ?_, ?_⟩
    · intro depth s hf h
      rw [parseValue] at h
      split at h
      · rename_i r0 h0
        have l0 := skipSpace_cons_length h0
        split at h
        · simp at h
        · split at h
          · simp at h
          · have l1 := skipSpace_length r0
            split at h
            · simp at h
            · rename_i e h2
              simp only [Except.error.injEq] at h
              rw [h] at h2
              exact ihM _ _ (by omega) h2
      · rename_i r0 h0
        have l0 := skipSpace_cons_length h0
        split at h
        · simp at h
        · split at h
          · simp at h
          · have l1 := skipSpace_length r0
            split at h
            · simp at h
            · rename_i e h2
              simp only [Except.error.injEq] at h
              rw [h] at h2
              exact ihE _ _ (by omega) h2
      · split at h
        · simp at h
        · simp at h
    · intro depth s hf h
      rw [parseMembers] at h
      split at h
      · rename_i r0 h0
        have l0 := skipSpace_cons_length h0
        split at h
        · simp at h
        · rename_i key r1 h1
          have l1 := scanString_length _ _ _ _ (Nat.le_refl _) h1
          split at h
          · rename_i r2 h2
            have l2 := skipSpace_cons_length h2
            split at h
            · rename_i e h3
              simp only [Except.error.injEq] at h
              rw [h] at h3
              exact ihV _ _ (by omega) h3
            · rename_i v r3 h3
              have l3 := pV _ _ _ _ h3
              split at h
              · simp at h
              · rename_i r4 h4
                have l4 := skipSpace_cons_length h4
                split at h
                · rename_i e h5
                  simp only [Except.error.injEq] at h
                  rw [h] at h5
                  exact ihM _ _ (by omega) h5
                · simp at h
              · simp at h
          · simp at h
      · simp at h
    · intro depth s hf h
      rw [parseElems] at h
      split at h
      · rename_i e h1
        simp only [Except.error.injEq] at h
        rw [h] at h1
        exact ihV _ _ (by omega) h1
      · rename_i v r1 h1
        have l1 := pV _ _ _ _ h1
        split at h
        · simp at h
        · rename_i r2 h2
          have l2 := skipSpace_cons_length h2
          split at h
          · rename_i e h3
            simp only [Except.error.injEq] at h
            rw [h] at h3
            exact ihE _ _ (by omega) h3
          · simp at h
        · simp at h

/-- The bound on the steps of the parser is never used up: `json.parse` answers
every text with a value or with a syntax error. -/
theorem parse_ne_outOfFuel (data : Str) : parse data ≠ .error .outOfFuel := by
  intro h
  unfold parse at h
  split at h
  · rename_i e h1
    simp only [Except.error.injEq] at h
    rw [h] at h1
    exact (parse_fuel _).1 _ _ (Nat.le_refl _) h1
  · split at h
    · simp at h
    · simp at h

/-- A text cut right after an opening bracket or brace is a syntax error. -/
theorem parse_unclosed :
    parse "[".toList = .error .SyntaxError ∧ parse "\x7b".toList = .error .SyntaxError ∧
      parse "[[".toList = .error .SyntaxError ∧
      parse "\x7b\"a\":[".toList = .error .SyntaxError := by
  decide

end json

/-! ### Status classification (`CheckResponse`, `Client.Do`, `Client.Get`) -/

/-- A property of both branches of a conditional holds of the conditional. -/
theorem ite_cases {α : Type} (P : α → Prop) (c : Prop) [Decidable c] (a b : α)
    (ha : P a) (hb : P b) : P (if c then a else b) := by
  split <;> assumption

/-- An empty text is not valid JSON: the decoder changes nothing. -/
theorem unmarshalErrorResponse_empty (st : http.ResponseState × ErrorResponse) :
    unmarshalErrorResponse [] st = st := rfl

/-- `CheckResponse` returns nil exactly on the status codes 200 to 299. -/
theorem CheckResponse_nil_iff (resp : http.Response) :
    (CheckResponse resp).2 = none ↔ 200 ≤ resp.StatusCode ∧ resp.StatusCode ≤ 299 := by
  unfold CheckResponse
  by_cases h : 200 ≤ resp.StatusCode ∧ resp.StatusCode ≤ 299
  · simp [h]
  · simp only [h, if_false, iff_false]
    cases hf : (http.ReadAll resp.Body).2 <;> simp [http.ReadAll] at hf ⊢

/-- The decoder on a member of the response either leaves its body as it was
or sets it to nil. -/
theorem decodeResponseMember_Body (key : Str) (v : json.Value) (resp : http.ResponseState) :
    (decodeResponseMember key v resp).Body = resp.Body ∨
      (decodeResponseMember key v resp).Body = none := by
  dsimp only [decodeResponseMember]
  apply ite_cases (fun st : http.ResponseState => st.Body = resp.Body ∨ st.Body = none)
  · exact .inl rfl
  · apply ite_cases (fun st : http.ResponseState => st.Body = resp.Body ∨ st.Body = none)
    · cases v
      case null => exact .inr rfl
      all_goals exact .inl rfl
    · exact .inl rfl

/-- The decoder on the response either leaves its body as it was or sets it to
nil. -/
theorem decodeResponseMembers_Body :
    ∀ (ms : json.Members) (resp : http.ResponseState),
      (decodeResponseMembers ms resp).Body = resp.Body ∨ (decodeResponseMembers ms resp).Body = none
  | .nil, _ => .inl rfl
  | .cons key v rest, resp => by
    rw [decodeResponseMembers]
    rcases decodeResponseMembers_Body rest (decodeResponseMember key v resp) with h | h
    · rcases decodeResponseMember_Body key v resp with h1 | h1
      · exact .inl (h.trans h1)
      · exact .inr (h.trans h1)
    · exact .inr h

/-- The decoder on a member of the `ErrorResponse` either leaves the body of
the response as it was or sets it to nil. -/
theorem decodeErrorResponseMember_Body (key : Str) (v : json.Value) (resp : http.ResponseState)
    (e : ErrorResponse) :
    (decodeErrorResponseMember key v (resp, e)).1.Body = resp.Body ∨
      (decodeErrorResponseMember key v (resp, e)).1.Body = none := by
  dsimp only [decodeErrorResponseMember]
  apply ite_cases (fun st : http.ResponseState × ErrorResponse => st.1.Body = resp.Body ∨ st.1.Body = none)
  · cases v
    case object ms =>
      cases e.Response
      case given => exact decodeResponseMembers_Body ms resp
      all_goals exact .inl rfl
    all_goals cases e.Response <;> exact .inl rfl
  · repeat' apply ite_cases (fun st : http.ResponseState × ErrorResponse => st.1.Body = resp.Body ∨ st.1.Body = none)
    all_goals exact .inl rfl

/-- The decoder on the `ErrorResponse` either leaves the body of the response
as it was or sets it to nil. -/
theorem decodeErrorResponseMembers_Body :
    ∀ (ms : json.Members) (st : http.ResponseState × ErrorResponse),
      (decodeErrorResponseMembers ms st).1.Body = st.1.Body ∨
        (decodeErrorResponseMembers ms st).1.Body = none
  | .nil, _ => .inl rfl
  | .cons key v rest, (resp, e) => by
    rw [decodeErrorResponseMembers]
    rcases decodeErrorResponseMembers_Body rest (decodeErrorResponseMember key v (resp, e))
      with h | h
    · rcases decodeErrorResponseMember_Body key v resp e with h1 | h1
      · exact .inl (h.trans h1)
      · exact .inr (h.trans h1)
    · exact .inr h

/-- On a status code outside 200..299 the response `CheckResponse` leaves behind
has the given body, read to its end, or no body. -/
theorem CheckResponse_Body (resp : http.Response)
    (hcode : ¬ (200 ≤ resp.StatusCode ∧ resp.StatusCode ≤ 299)) :
    (CheckResponse resp).1.Body = some resp.Body.drained ∨ (CheckResponse resp).1.Body = none := by
  unfold CheckResponse
  simp only [hcode, if_false, http.ReadAll]
  cases resp.Body.failed
  · simp only [Bool.not_false, if_true]
    unfold unmarshalErrorResponse
    split
    · exact decodeErrorResponseMembers_Body _ _
    · exact .inl rfl
  · exact .inl rfl

/-- The body of the response is lost, and its status code overwritten, on the
body `{"Response":{"Body":null,"StatusCode":7}}`: the decoder sets the field
`Body` of the response to nil through the pointer `Response`. -/
theorem CheckResponse_Body_nil :
    CheckResponse
        { StatusCode := 500,
          Body := { data := "\x7b\"Response\":\x7b\"Body\":null,\"StatusCode\":7\x7d\x7d".toList,
                    failed := false } } =
      ({ StatusCode := 7, Body := none },
        some { Response := .given, ID := [], Text := [], ErrorInfo := none }) := by
  decide

/-- A member whose key does not select `Response` leaves the response and the
pointer to it as they were. -/
theorem decodeErrorResponseMember_other (key : Str) (v : json.Value) (resp : http.ResponseState)
    (e : ErrorResponse) (hkey : json.keyIs key "Response".toList = false) :
    (decodeErrorResponseMember key v (resp, e)).1 = resp ∧
      (decodeErrorResponseMember key v (resp, e)).2.Response = e.Response := by
  dsimp only [decodeErrorResponseMember]
  rw [if_neg (by rw [hkey]; exact Bool.false_ne_true)]
  repeat' apply ite_cases (fun st : http.ResponseState × ErrorResponse => st.1 = resp ∧ st.2.Response = e.Response)
  all_goals exact ⟨rfl, rfl⟩

/-- Members none of whose keys selects `Response` leave the response and the
pointer to it as they were. -/
theorem decodeErrorResponseMembers_other :
    ∀ (ms : json.Members) (resp : http.ResponseState) (e : ErrorResponse),
      ms.noResponseKey = true →
      (decodeErrorResponseMembers ms (resp, e)).1 = resp ∧
        (decodeErrorResponseMembers ms (resp, e)).2.Response = e.Response
  | .nil, _, _, _ => ⟨rfl, rfl⟩
  | .cons key v rest, resp, e, h => by
    rw [json.Members.noResponseKey, Bool.and_eq_true, Bool.not_eq_true'] at h
    have h1 := decodeErrorResponseMember_other key v resp e h.1
    have h2 := decodeErrorResponseMembers_other rest
      (decodeErrorResponseMember key v (resp, e)).1 (decodeErrorResponseMember key v (resp, e)).2
      h.2
    rw [decodeErrorResponseMembers]
    exact ⟨h2.1.trans h1.1, h2.2.trans h1.2⟩

/-- The part of C4 that holds: on a status code outside 200..299, when the body
is not a JSON object with a member whose key selects `Response`, the
`ErrorResponse` returned points to the given response, which is left with its
status code and its body read. -/
theorem CheckResponse_carries_response (resp : http.Response)
    (hcode : ¬ (200 ≤ resp.StatusCode ∧ resp.StatusCode ≤ 299))
    (hbody : ∀ ms, json.parse resp.Body.data = .ok (.object ms) → ms.noResponseKey = true) :
    (CheckResponse resp).1 =
        { StatusCode := resp.StatusCode, Body := some resp.Body.drained } ∧
      ∃ e, (CheckResponse resp).2 = some e ∧ e.Response = .given := by
  unfold CheckResponse
  simp only [hcode, if_false, http.ReadAll]
  cases resp.Body.failed
  · simp only [Bool.not_false, if_true]
    unfold unmarshalErrorResponse
    split
    · rename_i ms hms
      have h := decodeErrorResponseMembers_other ms
        { StatusCode := resp.StatusCode, Body := some resp.Body.drained }
        { Response := .given, ID := [], Text := [], ErrorInfo := none } (hbody ms hms)
      exact ⟨h.1, _, rfl, h.2⟩
    · exact ⟨rfl, _, rfl, rfl⟩
  · exact ⟨rfl, _, rfl, rfl⟩

/-- The same at status 503 with the body `{"error_id":"x"}`. -/
theorem CheckResponse_carries_response_witness :
    (CheckResponse { StatusCode := 503,
                     Body := { data := "\x7b\"error_id\":\"x\"\x7d".toList, failed := false } }).1 =
        { StatusCode := 503, Body := some { data := [], failed := false } } ∧
      ∃ e, (CheckResponse { StatusCode := 503,
                            Body := { data := "\x7b\"error_id\":\"x\"\x7d".toList,
                                      failed := false } }).2 = some e ∧
        e.Response = .given :=
  CheckResponse_carries_response
    { StatusCode := 503, Body := { data := "\x7b\"error_id\":\"x\"\x7d".toList, failed := false } }
    (by decide) (by
      intro ms h
      have h' : ms = .cons "error_id".toList (.string "x".toList) .nil := by
        have : json.parse "\x7b\"error_id\":\"x\"\x7d".toList =
            .ok (.object (.cons "error_id".toList (.string "x".toList) .nil)) := by decide
        rw [this] at h
        cases h
        rfl
      subst h'
      decide)

/-- C4 at a failing input: on a response with status 500 and body
`{"Response":null}` the decoder sets the untagged field `Response` of the
`ErrorResponse` to nil; on the body `{"Response":{"StatusCode":200}}` it writes
status 200 into the response the field points to. In neither case does the
error returned carry the response with its status 500. -/
theorem CheckResponse_Response_overwritten :
    CheckResponse
        { StatusCode := 500,
          Body := { data := "\x7b\"Response\":null\x7d".toList, failed := false } } =
      ({ StatusCode := 500, Body := some { data := [], failed := false } },
        some { Response := .nil, ID := [], Text := [], ErrorInfo := none }) ∧
    CheckResponse
        { StatusCode := 500,
          Body := { data := "\x7b\"Response\":\x7b\"StatusCode\":200\x7d\x7d".toList,
                    failed := false } } =
      ({ StatusCode := 200, Body := some { data := [], failed := false } },
        some { Response := .given, ID := [], Text := [], ErrorInfo := none }) := by
  decide

/-- C8: for every response with a status code outside 200..299 and an empty
body, `CheckResponse` returns a non-nil `ErrorResponse` whose `ID` and `Text`
are empty and whose `ErrorInfo` is nil (its `Response` is the given response). -/
theorem CheckResponse_empty_body (resp : http.Response)
    (hcode : ¬ (200 ≤ resp.StatusCode ∧ resp.StatusCode ≤ 299))
    (hbody : resp.Body.data = []) :
    (CheckResponse resp).2 =
      some { Response := .given, ID := [], Text := [], ErrorInfo := none } := by
  unfold CheckResponse
  simp only [hcode, if_false, http.ReadAll, hbody]
  cases resp.Body.failed <;> simp [unmarshalErrorResponse_empty]

/-- C8 at status 404 with an empty body. -/
theorem CheckResponse_empty_body_witness :
    (CheckResponse { StatusCode := 404, Body := { data := [], failed := false } }).2 =
      some { Response := .given, ID := [], Text := [], ErrorInfo := none } :=
  CheckResponse_empty_body { StatusCode := 404, Body := { data := [], failed := false } }
    (by decide) rfl

/-- C9: when the transport answers a request with a response whose status code
is outside 200..299, `Client.Do` returns that response, in the state
`CheckResponse` has left it in, with a non-nil `*ErrorResponse`. In that state
the body is the transport's, read to its end, or nil; and unless the body is a
JSON object with a member whose key selects the field `Response`, the status
code is the transport's, the body is the transport's, read to its end, and the
`ErrorResponse` points to the response. `Client.Get`, for a resource whose GET
request this is, returns the same response and error and the resource
unchanged, whatever the resource's `decode` is: `decode` is not called. -/
theorem Do_and_Get_on_error_status {ρ : Type} (c : stingray.Client) (req : http.Request)
    (resp : http.Response) (hsend : c.Client req = .ok resp)
    (hcode : ¬ (200 ≤ resp.StatusCode ∧ resp.StatusCode ≤ 299)) :
    ∃ (after : http.ResponseState) (e : ErrorResponse),
      CheckResponse resp = (after, some e) ∧
      c.Do req = (some after, some (.api e)) ∧
      (after.Body = some resp.Body.drained ∨ after.Body = none) ∧
      ((∀ ms, json.parse resp.Body.data = .ok (.object ms) → ms.noResponseKey = true) →
        after = { StatusCode := resp.StatusCode, Body := some resp.Body.drained } ∧
          e.Response = .given) ∧
      ∀ (R : Resourcer ρ) (r : ρ),
        c.doMakeRequest (R.pathType r) "GET".toList (resourcePath R r) none = .ok req →
        ∀ decode : Str → ρ → ρ × Option Error,
          c.Get { R with decode := decode } r = .returned (r, some after, some (.api e)) := by
  have hne : (CheckResponse resp).2 ≠ none := fun h => hcode ((CheckResponse_nil_iff resp).1 h)
  obtain ⟨e, he⟩ := Option.ne_none_iff_exists'.1 hne
  have hcr : CheckResponse resp = ((CheckResponse resp).1, some e) := by
    rw [← he]
  have hdo : c.Do req = (some (CheckResponse resp).1, some (.api e)) := by
    unfold Client.Do
    rw [hsend]
    dsimp only
    rw [hcr]
  refine ⟨(CheckResponse resp).1, e, hcr, hdo, CheckResponse_Body resp hcode, ?_, ?_⟩
  · intro hbody
    obtain ⟨h1, e1, h2, h3⟩ := CheckResponse_carries_response resp hcode hbody
    rw [he] at h2
    cases h2
    exact ⟨h1, h3⟩
  · intro R r hreq decode
    unfold Client.Get
    have hreq' : c.doMakeRequest (R.pathType r) "GET".toList
        (resourcePath { R with decode := decode } r) none = .ok req := hreq
    simp only [hreq', hdo]

/-- C9 at the client whose transport answers 404 with an empty body: `Do` and
`Get` return the response with status 404 and its body read. -/
theorem Do_and_Get_on_error_status_witness :
    ((exampleClient (serving 404 [])).Client exampleRequest =
        .ok { StatusCode := 404, Body := { data := [], failed := false } } ∧
      ¬ (200 ≤ (404 : Int) ∧ (404 : Int) ≤ 299)) ∧
    (exampleClient (serving 404 [])).Do exampleRequest =
      (some { StatusCode := 404, Body := some { data := [], failed := false } },
        some (.api { Response := .given, ID := [], Text := [], ErrorInfo := none })) ∧
    ∀ (R : Resourcer NodeStats) (r : NodeStats),
      (exampleClient (serving 404 [])).doMakeRequest (R.pathType r) "GET".toList
        (resourcePath R r) none = .ok exampleRequest →
      ∀ decode : Str → NodeStats → NodeStats × Option Error,
        (exampleClient (serving 404 [])).Get { R with decode := decode } r =
          .returned (r,
            some { StatusCode := 404, Body := some { data := [], failed := false } },
            some (.api { Response := .given, ID := [], Text := [], ErrorInfo := none })) := by
  obtain ⟨after, e, hcr, hdo, _, _, hget⟩ :=
    @Do_and_Get_on_error_status NodeStats (exampleClient (serving 404 [])) exampleRequest
      { StatusCode := 404, Body := { data := [], failed := false } } rfl (by decide)
  have hval : CheckResponse { StatusCode := 404, Body := { data := [], failed := false } } =
      ({ StatusCode := 404, Body := some { data := [], failed := false } },
        some { Response := .given, ID := [], Text := [], ErrorInfo := none }) := by decide
  rw [hval] at hcr
  cases hcr
  exact ⟨⟨rfl, by decide⟩, hdo, hget⟩

/-- The request of the witness above is the one `Get` builds for the node
statistics `n1`, and `Get` returns the node statistics unchanged with the
response and the error. -/
theorem Get_on_404 :
    (exampleClient (serving 404 [])).doMakeRequest statsPath "GET".toList
        (resourcePath NodeStats.Resourcer (NewNodeStats "n1".toList)) none = .ok exampleRequest ∧
      (exampleClient (serving 404 [])).Get NodeStats.Resourcer (NewNodeStats "n1".toList) =
        .returned (NewNodeStats "n1".toList,
          some { StatusCode := 404, Body := some { data := [], failed := false } },
          some (.api { Response := .given, ID := [], Text := [], ErrorInfo := none })) := by
  decide

/-! ### Namespace routing and malformed paths (the four verbs) -/

/-- C1 at a failing input: the node statistics `n1` have `pathType() ==
statsPath`; asked through a transport that reports the URL of the request it is
given, `Get` has resolved `nodes/node/n1` against `statsURL`, while `Set`,
`Delete` and `List`, which call `NewRequest`, have resolved their paths against
`configURL`. -/
theorem verbs_on_node_stats :
    NodeStats.Resourcer.pathType (NewNodeStats "n1".toList) = statsPath ∧
    (exampleClient echoing).Get NodeStats.Resourcer (NewNodeStats "n1".toList) =
      .returned (NewNodeStats "n1".toList, none, some (.transport
        "http://host/api/tm/3.5/status/local_tm/statistics/nodes/node/n1".toList)) ∧
    (exampleClient echoing).Set NodeStats.Resourcer (NewNodeStats "n1".toList) =
      .returned (none, some (.transport
        "http://host/api/tm/3.5/config/active/nodes/node/n1".toList)) ∧
    (exampleClient echoing).Delete NodeStats.Resourcer (NewNodeStats "n1".toList) =
      (none, some (.transport "http://host/api/tm/3.5/config/active/nodes/node/n1".toList)) ∧
    (exampleClient echoing).List emptyList NodeStats.Resourcer (NewNodeStats "n1".toList) =
      .returned (none, none, some (.transport
        "http://host/api/tm/3.5/config/active/nodes/node".toList)) := by
  decide

/-- `Set`, `Delete` and `List` build their request with `configPath`, whatever
the resource's `pathType()` is; `Get` builds it with the resource's own. -/
theorem verbs_pathType {ρ ι : Type} (c : stingray.Client) (L : resourceList ι) (R : Resourcer ρ)
    (r : ρ) (p : pathType) :
    c.Set { R with pathType := fun _ => p } r = c.Set R r ∧
    c.Delete { R with pathType := fun _ => p } r = c.Delete R r ∧
    c.List L { R with pathType := fun _ => p } r = c.List L R r :=
  ⟨rfl, rfl, rfl⟩

/-- C7 at its failing verb: when the path `{endpoint}/{name}` of a resource
does not parse as a URL reference, `Set` panics (it reads `req.Header` of the
nil request before it looks at the error). -/
theorem Set_panics_on_bad_path {ρ : Type} (c : stingray.Client) (R : Resourcer ρ) (r : ρ)
    (e : url.Err) (hparse : url.Parse (resourcePath R r) = .error e) :
    c.Set R r = .panicked := by
  unfold Client.Set Client.NewRequest Client.doMakeRequest
  rw [hparse]

/-- C7 at the node statistics named `%zz`. -/
theorem Set_panics_on_bad_path_witness :
    url.Parse (resourcePath NodeStats.Resourcer (NewNodeStats "%zz".toList)) =
        .error (.EscapeError "%zz".toList) ∧
      (exampleClient refusing).Set NodeStats.Resourcer (NewNodeStats "%zz".toList) = .panicked :=
  ⟨by decide,
    Set_panics_on_bad_path (exampleClient refusing) NodeStats.Resourcer
      (NewNodeStats "%zz".toList) (.EscapeError "%zz".toList) (by decide)⟩

/-- The other three verbs do what C7 says: when the path does not parse they
return the parse error and no response, the transport is not asked (the result
is the same for every transport), and `Get` leaves the resource as it was. -/
theorem Get_Delete_List_on_bad_path {ρ ι : Type} (c : stingray.Client) (L : resourceList ι)
    (R : Resourcer ρ) (r : ρ) (t : http.Client) :
    (∀ e, url.Parse (resourcePath R r) = .error e →
      Client.Get { c with Client := t } R r = .returned (r, none, some (.url e)) ∧
      Client.Delete { c with Client := t } R r = (none, some (.url e))) ∧
    (∀ e, url.Parse (R.endpoint r) = .error e →
      Client.List { c with Client := t } L R r = .returned (none, none, some (.url e))) := by
  refine ⟨fun e h => ⟨?_, ?_⟩, fun e h => ?_⟩
  · unfold Client.Get Client.doMakeRequest
    rw [h]
  · unfold Client.Delete Client.NewRequest Client.doMakeRequest
    rw [h]
  · unfold Client.List Client.NewRequest Client.doMakeRequest
    rw [h]

/-! ### The JSON of a resource (`jsonMarshal`, `decode`) -/

set_option maxRecDepth 100000 in
/-- C5 at a failing input: for the node statistics whose `State` is the six
bytes `\u0026` (a backslash, then `u0026`), `json.Marshal` writes the string
as `"\\u0026"`, `jsonMarshal` turns it into `"\&"`, and `decode` rejects the
bytes of `Bytes()` with a syntax error, leaving its target as it was. -/
theorem decode_Bytes_fails :
    bytes.Contains "\"state\":\"\\\\u0026\"".toList
        (NodeStats.Marshal { NodeStatistics := { State := "\\u0026".toList } }).1 = true ∧
      bytes.Contains "\"state\":\"\\&\"".toList
        (NodeStats.Bytes { NodeStatistics := { State := "\\u0026".toList } }) = true ∧
      NodeStats.decode (NodeStats.Bytes { NodeStatistics := { State := "\\u0026".toList } }) {} =
        ({}, some (.json .SyntaxError)) := by
  decide

set_option maxRecDepth 100000 in
/-- Where no such sequence is in a string, the bytes of `Bytes()` decode to the
value they were made from: here with `&`, `<` and `>` in `State`. -/
theorem decode_Bytes_example :
    NodeStats.decode
        (NodeStats.Bytes { NodeStatistics := { State := "a&b<c>".toList, Port := -80,
                                               BytesInHigh := 4294967295 } }) {} =
      ({ NodeStatistics := { State := "a&b<c>".toList, Port := -80, BytesInHigh := 4294967295 } },
        none) := by
  decide

/-! ### The byte counters (`GetNodeStats`) -/

/-- The decoder keeps a `uint32` target in range. -/
theorem decodeUint32_lt (v : json.Value) (old : Nat) (h : old < 2 ^ 32) :
    (json.decodeUint32 v old).1 < 2 ^ 32 := by
  unfold json.decodeUint32
  split
  · split
    · rename_i lit n hn
      unfold json.parseUint at hn
      split at hn
      · rename_i hc
        simp only [Option.some.injEq] at hn
        omega
      · simp at hn
    · exact h
  · exact h
  · exact h

/-- Decoding one member into a `NodeStatistics` keeps its `uint32` fields in
range. -/
theorem decodeNodeStatisticsMember_uint32 (key : Str) (v : json.Value) (s : NodeStatistics)
    (failed : Bool) (h : s.uint32Fields) :
    (decodeNodeStatisticsMember key v (s, failed)).1.uint32Fields := by
  obtain ⟨h1, h2, h3, h4⟩ := h
  have k1 := decodeUint32_lt v _ h1
  have k2 := decodeUint32_lt v _ h2
  have k3 := decodeUint32_lt v _ h3
  have k4 := decodeUint32_lt v _ h4
  dsimp only [decodeNodeStatisticsMember]
  repeat' apply ite_cases (fun st : NodeStatistics × Bool => st.1.uint32Fields)
  all_goals
    first
      | exact ⟨h1, h2, h3, h4⟩
      | exact ⟨k1, h2, h3, h4⟩
      | exact ⟨h1, k2, h3, h4⟩
      | exact ⟨h1, h2, k3, h4⟩
      | exact ⟨h1, h2, h3, k4⟩

/-- Decoding into a `NodeStatistics` keeps its `uint32` fields in range. -/
theorem decodeNodeStatisticsMembers_uint32 :
    ∀ (ms : json.Members) (st : NodeStatistics × Bool), st.1.uint32Fields →
      (decodeNodeStatisticsMembers ms st).1.uint32Fields
  | .nil, _, h => h
  | .cons key v rest, (s, failed), h =>
    decodeNodeStatisticsMembers_uint32 rest _ (decodeNodeStatisticsMember_uint32 key v s failed h)

/-- Decoding into a `NodeStats` keeps the `uint32` fields in range. -/
theorem decodeNodeStatsMembers_uint32 :
    ∀ (ms : json.Members) (r : NodeStats) (failed : Bool), r.NodeStatistics.uint32Fields →
      (decodeNodeStatsMembers ms (r, failed)).1.NodeStatistics.uint32Fields
  | .nil, r, failed, h => h
  | .cons key v rest, r, failed, h => by
    unfold decodeNodeStatsMembers
    split_ifs
    · cases v with
      | object ms =>
        exact decodeNodeStatsMembers_uint32 rest _ _
          (decodeNodeStatisticsMembers_uint32 _ _ h)
      | _ => exact decodeNodeStatsMembers_uint32 rest _ _ h
    · exact decodeNodeStatsMembers_uint32 rest _ _ h

/-- The method `decode` keeps the `uint32` fields in range. -/
theorem NodeStats_decode_uint32 (data : Str) (r : NodeStats) (h : r.NodeStatistics.uint32Fields) :
    (NodeStats.decode data r).1.NodeStatistics.uint32Fields := by
  unfold NodeStats.decode
  split
  · exact h
  · exact decodeNodeStatsMembers_uint32 _ _ _ h
  · exact h
  · exact h

/-- What `Get` returns without error for node statistics made by `NewNodeStats`
has its `uint32` fields in range. -/
theorem Get_NodeStats_uint32 (c : stingray.Client) (name : Str) (r0 : NodeStats)
    (resp : Option http.ResponseState) (err : Option Error)
    (hget : c.Get NodeStats.Resourcer (NewNodeStats name) = .returned (r0, resp, err)) :
    r0.NodeStatistics.uint32Fields := by
  have hinit : (NewNodeStats name).NodeStatistics.uint32Fields := by
    show ({} : NodeStatistics).uint32Fields
    unfold NodeStatistics.uint32Fields
    decide
  unfold Client.Get at hget
  split at hget
  · cases hget
    exact hinit
  · split at hget
    · cases hget
      exact hinit
    · cases hget
    · split at hget
      · cases hget
      · dsimp only at hget
        split at hget
        · cases hget
          exact hinit
        · cases hget
          exact NodeStats_decode_uint32 _ _ hinit

/-- The assignment to `BytesIn` sets `BytesIn`. -/
theorem setBytesIn_BytesIn (r : NodeStats) (v : Int) :
    (r.setBytesIn v).NodeStatistics.BytesIn = v := rfl

/-- The assignment to `BytesIn` leaves `BytesInHigh` as it was. -/
theorem setBytesIn_BytesInHigh (r : NodeStats) (v : Int) :
    (r.setBytesIn v).NodeStatistics.BytesInHigh = r.NodeStatistics.BytesInHigh := rfl

/-- The assignment to `BytesIn` leaves `BytesInLow` as it was. -/
theorem setBytesIn_BytesInLow (r : NodeStats) (v : Int) :
    (r.setBytesIn v).NodeStatistics.BytesInLow = r.NodeStatistics.BytesInLow := rfl

/-- The assignment to `BytesIn` leaves `BytesOut` as it was. -/
theorem setBytesIn_BytesOut (r : NodeStats) (v : Int) :
    (r.setBytesIn v).NodeStatistics.BytesOut = r.NodeStatistics.BytesOut := rfl

/-- The assignment to `BytesIn` leaves `BytesOutHigh` as it was. -/
theorem setBytesIn_BytesOutHigh (r : NodeStats) (v : Int) :
    (r.setBytesIn v).NodeStatistics.BytesOutHigh = r.NodeStatistics.BytesOutHigh := rfl

/-- The assignment to `BytesIn` leaves `BytesOutLow` as it was. -/
theorem setBytesIn_BytesOutLow (r : NodeStats) (v : Int) :
    (r.setBytesIn v).NodeStatistics.BytesOutLow = r.NodeStatistics.BytesOutLow := rfl

/-- The assignment to `BytesOut` sets `BytesOut`. -/
theorem setBytesOut_BytesOut (r : NodeStats) (v : Int) :
    (r.setBytesOut v).NodeStatistics.BytesOut = v := rfl

/-- The assignment to `BytesOut` leaves `BytesInHigh` as it was. -/
theorem setBytesOut_BytesInHigh (r : NodeStats) (v : Int) :
    (r.setBytesOut v).NodeStatistics.BytesInHigh = r.NodeStatistics.BytesInHigh := rfl

/-- The assignment to `BytesOut` leaves `BytesInLow` as it was. -/
theorem setBytesOut_BytesInLow (r : NodeStats) (v : Int) :
    (r.setBytesOut v).NodeStatistics.BytesInLow = r.NodeStatistics.BytesInLow := rfl

/-- The assignment to `BytesOut` leaves `BytesOutHigh` as it was. -/
theorem setBytesOut_BytesOutHigh (r : NodeStats) (v : Int) :
    (r.setBytesOut v).NodeStatistics.BytesOutHigh = r.NodeStatistics.BytesOutHigh := rfl

/-- The assignment to `BytesOut` leaves `BytesOutLow` as it was. -/
theorem setBytesOut_BytesOutLow (r : NodeStats) (v : Int) :
    (r.setBytesOut v).NodeStatistics.BytesOutLow = r.NodeStatistics.BytesOutLow := rfl

/-- Sum of a split counter in `int64` arithmetic, for halves in `uint32`. -/
theorem wrapInt64_counter (hi lo : Nat) (hhi : hi < 2 ^ 32) (hlo : lo < 2 ^ 32) :
    (hi < 2 ^ 31 → wrapInt64 (wrapInt64 ((hi : Int) * 2 ^ 32) + (lo : Int)) =
        (hi : Int) * 2 ^ 32 + (lo : Int)) ∧
    (2 ^ 31 ≤ hi → wrapInt64 (wrapInt64 ((hi : Int) * 2 ^ 32) + (lo : Int)) =
        (hi : Int) * 2 ^ 32 + (lo : Int) - 2 ^ 64) := by
  unfold wrapInt64
  norm_num at hhi hlo ⊢
  constructor <;> intro h <;> omega

/-- C6, as stated, fails: decoded from a successful response, the pair
`BytesInHigh = 2147483648`, `BytesInLow = 0` gives `BytesIn =
-9223372036854775808`, not `2147483648 * 2^32 + 0`: the sum is made in `int64`. -/
theorem GetNodeStats_wraps :
    counters ((exampleClient (serving 200
        "\x7b\"statistics\":\x7b\"bytes_from_node_hi\":2147483648,\"bytes_from_node_lo\":0\x7d\x7d".toList)).GetNodeStats
          "n1".toList) =
        some (2147483648, 0, -9223372036854775808, 0, 0, 0) ∧
      (-9223372036854775808 : Int) ≠ (2147483648 : Int) * 2 ^ 32 + 0 := by
  decide

/-- C6, amended: when `Get` has succeeded for the node statistics made by
`NewNodeStats`, `GetNodeStats` returns them with the split counters as decoded,
each in the range of `uint32`, and for every pair whose high half is below
`2^31` with `BytesIn = BytesInHigh * 2^32 + BytesInLow` and `BytesOut =
BytesOutHigh * 2^32 + BytesOutLow` as integers; for a high half of `2^31` or
more the `int64` sum has wrapped: it is that number less `2^64`. -/
theorem GetNodeStats_counters (c : stingray.Client) (name : Str) (r0 : NodeStats)
    (resp : Option http.ResponseState)
    (hget : c.Get NodeStats.Resourcer (NewNodeStats name) = .returned (r0, resp, none)) :
    ∃ r : NodeStats,
      c.GetNodeStats name = .returned (some r, resp, none) ∧
      r.NodeStatistics.BytesInHigh = r0.NodeStatistics.BytesInHigh ∧
      r.NodeStatistics.BytesInLow = r0.NodeStatistics.BytesInLow ∧
      r.NodeStatistics.BytesOutHigh = r0.NodeStatistics.BytesOutHigh ∧
      r.NodeStatistics.BytesOutLow = r0.NodeStatistics.BytesOutLow ∧
      r.NodeStatistics.uint32Fields ∧
      (r.NodeStatistics.BytesInHigh < 2 ^ 31 →
        r.NodeStatistics.BytesIn =
          (r.NodeStatistics.BytesInHigh : Int) * 2 ^ 32 + (r.NodeStatistics.BytesInLow : Int)) ∧
      (2 ^ 31 ≤ r.NodeStatistics.BytesInHigh →
        r.NodeStatistics.BytesIn =
          (r.NodeStatistics.BytesInHigh : Int) * 2 ^ 32 + (r.NodeStatistics.BytesInLow : Int)
            - 2 ^ 64) ∧
      (r.NodeStatistics.BytesOutHigh < 2 ^ 31 →
        r.NodeStatistics.BytesOut =
          (r.NodeStatistics.BytesOutHigh : Int) * 2 ^ 32 + (r.NodeStatistics.BytesOutLow : Int)) ∧
      (2 ^ 31 ≤ r.NodeStatistics.BytesOutHigh →
        r.NodeStatistics.BytesOut =
          (r.NodeStatistics.BytesOutHigh : Int) * 2 ^ 32 + (r.NodeStatistics.BytesOutLow : Int)
            - 2 ^ 64) := by
  have hrange := Get_NodeStats_uint32 c name r0 resp none hget
  obtain ⟨h1, h2, h3, h4⟩ := hrange
  have hin := wrapInt64_counter _ _ h1 h2
  have hout := wrapInt64_counter _ _ h3 h4
  unfold Client.GetNodeStats
  rewrite [hget]
  refine ⟨_, rfl, ?_, ?_, ?_, ?_, ⟨?_, ?_, ?_, ?_⟩, ?_, ?_, ?_, ?_⟩
  · rw [setBytesIn_BytesInHigh, setBytesOut_BytesInHigh]
  · rw [setBytesIn_BytesInLow, setBytesOut_BytesInLow]
  · rw [setBytesIn_BytesOutHigh, setBytesOut_BytesOutHigh]
  · rw [setBytesIn_BytesOutLow, setBytesOut_BytesOutLow]
  · rw [setBytesIn_BytesInHigh, setBytesOut_BytesInHigh]
    exact h1
  · rw [setBytesIn_BytesInLow, setBytesOut_BytesInLow]
    exact h2
  · rw [setBytesIn_BytesOutHigh, setBytesOut_BytesOutHigh]
    exact h3
  · rw [setBytesIn_BytesOutLow, setBytesOut_BytesOutLow]
    exact h4
  · rw [setBytesIn_BytesInHigh, setBytesOut_BytesInHigh, setBytesIn_BytesInLow,
      setBytesOut_BytesInLow, setBytesIn_BytesIn]
    exact hin.1
  · rw [setBytesIn_BytesInHigh, setBytesOut_BytesInHigh, setBytesIn_BytesInLow,
      setBytesOut_BytesInLow, setBytesIn_BytesIn]
    exact hin.2
  · rw [setBytesIn_BytesOutHigh, setBytesOut_BytesOutHigh, setBytesIn_BytesOutLow,
      setBytesOut_BytesOutLow, setBytesIn_BytesOut, setBytesOut_BytesOut]
    exact hout.1
  · rw [setBytesIn_BytesOutHigh, setBytesOut_BytesOutHigh, setBytesIn_BytesOutLow,
      setBytesOut_BytesOutLow, setBytesIn_BytesOut, setBytesOut_BytesOut]
    exact hout.2

set_option maxRecDepth 100000 in
/-- C6 at a response with the pairs of the specification: high 1, low 0 gives
`1 << 32`; high 0, low 4294967295 gives 4294967295. -/
theorem GetNodeStats_counters_witness :
    (exampleClient (serving 200
        "\x7b\"statistics\":\x7b\"bytes_from_node_hi\":1,\"bytes_from_node_lo\":0,\"bytes_to_node_hi\":0,\"bytes_to_node_lo\":4294967295\x7d\x7d".toList)).Get
          NodeStats.Resourcer (NewNodeStats "n1".toList) =
        .returned
          ({ jsonStatsResource := (NewNodeStats "n1".toList).jsonStatsResource,
             NodeStatistics := { BytesInHigh := 1, BytesOutLow := 4294967295 } },
            some { StatusCode := 200, Body := some { data := [], failed := false } }, none) ∧
      counters ((exampleClient (serving 200
        "\x7b\"statistics\":\x7b\"bytes_from_node_hi\":1,\"bytes_from_node_lo\":0,\"bytes_to_node_hi\":0,\"bytes_to_node_lo\":4294967295\x7d\x7d".toList)).GetNodeStats
          "n1".toList) =
        some (1, 0, 4294967296, 0, 4294967295, 4294967295) ∧
      ∃ r : NodeStats,
        (exampleClient (serving 200
          "\x7b\"statistics\":\x7b\"bytes_from_node_hi\":1,\"bytes_from_node_lo\":0,\"bytes_to_node_hi\":0,\"bytes_to_node_lo\":4294967295\x7d\x7d".toList)).GetNodeStats
            "n1".toList =
          .returned (some r,
            some { StatusCode := 200, Body := some { data := [], failed := false } }, none) ∧
        r.NodeStatistics.BytesInHigh = 1 ∧ r.NodeStatistics.BytesOutLow = 4294967295 :=
  ⟨by decide, by decide,
    (GetNodeStats_counters (exampleClient (serving 200
        "\x7b\"statistics\":\x7b\"bytes_from_node_hi\":1,\"bytes_from_node_lo\":0,\"bytes_to_node_hi\":0,\"bytes_to_node_lo\":4294967295\x7d\x7d".toList))
      "n1".toList
      { jsonStatsResource := (NewNodeStats "n1".toList).jsonStatsResource,
        NodeStatistics := { BytesInHigh := 1, BytesOutLow := 4294967295 } }
      (some { StatusCode := 200, Body := some { data := [], failed := false } })
      (by decide)).imp fun _ h => ⟨h.1, h.2.1, h.2.2.2.2.1⟩⟩

/-! ### The fix-up of the serializer (`bytes.Replace`, `jsonMarshal`) -/

namespace bytes

/-- Passing over `k` bytes is dropping them. -/
theorem replaceAux_skip {α : Type} [DecidableEq α] (old new : List α) :
    ∀ (xs : List α) (k : Nat), replaceAux old new xs k = replaceAux old new (xs.drop k) 0
  | [], k => by simp [replaceAux]
  | x :: xs, 0 => rfl
  | x :: xs, k + 1 => by
    rw [replaceAux, List.drop_succ_cons]
    exact replaceAux_skip old new xs k

/-- `Replace` on the empty slice. -/
theorem Replace_nil {α : Type} [DecidableEq α] (old new : List α) : Replace [] old new = [] := rfl

/-- Where `old` does not start, `Replace` copies a byte. -/
theorem Replace_cons_of_no_match {α : Type} [DecidableEq α] (old new : List α) (x : α) (xs : List α)
    (h : old.isPrefixOf (x :: xs) = false) :
    Replace (x :: xs) old new = x :: Replace xs old new := by
  unfold Replace
  rw [replaceAux]
  simp [h]

/-- Where `old` starts, `Replace` writes `new` and goes on after `old`. -/
theorem Replace_cons_of_match {α : Type} [DecidableEq α] (old new : List α) (x : α) (xs : List α)
    (h : old.isPrefixOf (x :: xs) = true) :
    Replace (x :: xs) old new = new ++ Replace (xs.drop (old.length - 1)) old new := by
  unfold Replace
  rw [replaceAux]
  simp only [h, if_true]
  rw [replaceAux_skip]

/-- `Replace` on a slice that starts with `old`. -/
theorem Replace_append {α : Type} [DecidableEq α] (old new t : List α) (h : old ≠ []) :
    Replace (old ++ t) old new = new ++ Replace t old new := by
  cases old with
  | nil => exact absurd rfl h
  | cons a old' =>
    rw [List.cons_append, Replace_cons_of_match]
    · simp
    · simp [List.isPrefixOf_iff_prefix]

/-- A text without the byte `c` that starts the result of replacing `old` by `c`
starts the input as well. -/
theorem isPrefixOf_of_isPrefixOf_Replace {α : Type} [DecidableEq α] (old : List α) (c : α) :
    ∀ (q u : List α), (∀ a ∈ q, a ≠ c) → q.isPrefixOf (Replace u old [c]) = true →
      q.isPrefixOf u = true
  | [], u, _, _ => by simp
  | a :: q, [], _, h => by simp [Replace_nil] at h
  | a :: q, y :: ys, hq, h => by
    cases hp : old.isPrefixOf (y :: ys)
    · rw [Replace_cons_of_no_match _ _ _ _ hp] at h
      rw [List.isPrefixOf_cons₂, Bool.and_eq_true] at h ⊢
      exact ⟨h.1, isPrefixOf_of_isPrefixOf_Replace old c q ys
        (fun b hb => hq b (List.mem_cons_of_mem _ hb)) h.2⟩
    · rw [Replace_cons_of_match _ _ _ _ hp] at h
      rw [List.singleton_append, List.isPrefixOf_cons₂, Bool.and_eq_true] at h
      exact absurd (by simpa using h.1) (hq a (List.mem_cons_self _ _))

/-- An occurrence in the tail is an occurrence in the list. -/
theorem Contains_cons {α : Type} [DecidableEq α] (q : List α) (y : α) (ys : List α) (h : Contains q ys = true) :
    Contains q (y :: ys) = true := by
  rw [Contains, h, Bool.or_true]

/-- An occurrence after `n` bytes is an occurrence in the list. -/
theorem Contains_drop {α : Type} [DecidableEq α] (q : List α) :
    ∀ (ys : List α) (n : Nat), Contains q (ys.drop n) = true → Contains q ys = true
  | ys, 0, h => by simpa using h
  | [], n + 1, h => by simpa using h
  | y :: ys, n + 1, h => Contains_cons q y ys (Contains_drop q ys n (by simpa using h))

/-- Replacing `old` by the byte `c` creates no occurrence of a text without `c`. -/
theorem Contains_of_Contains_Replace {α : Type} [DecidableEq α] (old q : List α) (c : α) (hq : ∀ a ∈ q, a ≠ c)
    (hne : q ≠ []) :
    ∀ (n : Nat) (u : List α), u.length ≤ n → Contains q (Replace u old [c]) = true →
      Contains q u = true
  | _, [], _, h => by simp [Replace_nil, Contains] at h
  | 0, y :: ys, hn, _ => by simp at hn
  | n + 1, y :: ys, hn, h => by
    have hlen : ys.length ≤ n := by simpa using hn
    cases hp : old.isPrefixOf (y :: ys)
    · have hB := isPrefixOf_of_isPrefixOf_Replace old c q (y :: ys) hq
      rw [Replace_cons_of_no_match _ _ _ _ hp] at h hB
      rw [Contains, Bool.or_eq_true] at h ⊢
      rcases h with h | h
      · exact Or.inl (hB h)
      · exact Or.inr (Contains_of_Contains_Replace old q c hq hne n ys hlen h)
    · rw [Replace_cons_of_match _ _ _ _ hp, List.singleton_append, Contains,
        Bool.or_eq_true] at h
      rcases h with h | h
      · cases q with
        | nil => exact absurd rfl hne
        | cons a q =>
          rw [List.isPrefixOf_cons₂, Bool.and_eq_true] at h
          exact absurd (by simpa using h.1) (hq a (List.mem_cons_self _ _))
      · exact Contains_cons q y ys (Contains_drop q ys _
          (Contains_of_Contains_Replace old q c hq hne n _
            (le_trans (by simp) hlen) h))

/-- After `old` has been replaced by a byte that is not in it, `old` does not
occur. -/
theorem not_Contains_Replace {α : Type} [DecidableEq α] (old : List α) (c : α) (hc : ∀ a ∈ old, a ≠ c) (hne : old ≠ []) :
    ∀ (n : Nat) (u : List α), u.length ≤ n → Contains old (Replace u old [c]) = false
  | _, [], _ => by simp [Replace_nil, Contains]
  | 0, y :: ys, hn => by simp at hn
  | n + 1, y :: ys, hn => by
    have hlen : ys.length ≤ n := by simpa using hn
    cases hp : old.isPrefixOf (y :: ys)
    · have hB := isPrefixOf_of_isPrefixOf_Replace old c old (y :: ys) hc
      rw [Replace_cons_of_no_match _ _ _ _ hp] at hB ⊢
      rw [Contains, Bool.or_eq_false_iff]
      refine ⟨?_, not_Contains_Replace old c hc hne n ys hlen⟩
      cases h : old.isPrefixOf (y :: Replace ys old [c])
      · rfl
      · rw [hB h] at hp
        cases hp
    · rw [Replace_cons_of_match _ _ _ _ hp, List.singleton_append, Contains,
        Bool.or_eq_false_iff]
      refine ⟨?_, not_Contains_Replace old c hc hne n _ (le_trans (by simp) hlen)⟩
      cases old with
      | nil => exact absurd rfl hne
      | cons a q =>
        rw [List.isPrefixOf_cons₂]
        have : (a == c) = false := by simpa using hc a (List.mem_cons_self _ _)
        rw [this, Bool.false_and]

end bytes

/-- Replacing `\u0026` passes over `\u003c`. -/
theorem Replace_amp_over_lt (t : Str) :
    bytes.Replace ("\\u003c".toList ++ t) "\\u0026".toList "&".toList =
      "\\u003c".toList ++ bytes.Replace t "\\u0026".toList "&".toList := by
  simp [bytes.Replace, bytes.replaceAux]

/-- Replacing `\u0026` passes over `\u003e`. -/
theorem Replace_amp_over_gt (t : Str) :
    bytes.Replace ("\\u003e".toList ++ t) "\\u0026".toList "&".toList =
      "\\u003e".toList ++ bytes.Replace t "\\u0026".toList "&".toList := by
  simp [bytes.Replace, bytes.replaceAux]

/-- Replacing `\u003c` passes over `\u003e`. -/
theorem Replace_lt_over_gt (t : Str) :
    bytes.Replace ("\\u003e".toList ++ t) "\\u003c".toList "<".toList =
      "\\u003e".toList ++ bytes.Replace t "\\u003c".toList "<".toList := by
  simp [bytes.Replace, bytes.replaceAux]

/-- Replacing `\u003c` passes over `&`. -/
theorem Replace_lt_over_amp (t : Str) :
    bytes.Replace ('&' :: t) "\\u003c".toList "<".toList =
      '&' :: bytes.Replace t "\\u003c".toList "<".toList :=
  bytes.Replace_cons_of_no_match _ _ _ _ rfl

/-- Replacing `\u003e` passes over `&`. -/
theorem Replace_gt_over_amp (t : Str) :
    bytes.Replace ('&' :: t) "\\u003e".toList ">".toList =
      '&' :: bytes.Replace t "\\u003e".toList ">".toList :=
  bytes.Replace_cons_of_no_match _ _ _ _ rfl

/-- Replacing `\u003e` passes over `<`. -/
theorem Replace_gt_over_lt (t : Str) :
    bytes.Replace ('<' :: t) "\\u003e".toList ">".toList =
      '<' :: bytes.Replace t "\\u003e".toList ">".toList :=
  bytes.Replace_cons_of_no_match _ _ _ _ rfl

/-- Passing over `k` bytes is dropping them. -/
theorem unescapeHTMLAux_skip :
    ∀ (xs : Str) (k : Nat), unescapeHTMLAux xs k = unescapeHTMLAux (xs.drop k) 0
  | [], k => by simp [unescapeHTMLAux]
  | x :: xs, 0 => rfl
  | x :: xs, k + 1 => by
    rw [unescapeHTMLAux, List.drop_succ_cons]
    exact unescapeHTMLAux_skip xs k

/-- `unescapeHTML` at `\u0026`. -/
theorem unescapeHTML_amp (t : Str) :
    unescapeHTML ("\\u0026".toList ++ t) = '&' :: unescapeHTML t := by
  show unescapeHTMLAux ('\\' :: 'u' :: '0' :: '0' :: '2' :: '6' :: t) 0 = _
  rw [unescapeHTMLAux, if_pos (by simp), unescapeHTMLAux_skip]
  rfl

/-- `unescapeHTML` at `\u003c`. -/
theorem unescapeHTML_lt (t : Str) :
    unescapeHTML ("\\u003c".toList ++ t) = '<' :: unescapeHTML t := by
  show unescapeHTMLAux ('\\' :: 'u' :: '0' :: '0' :: '3' :: 'c' :: t) 0 = _
  rw [unescapeHTMLAux, if_neg (by simp), if_pos (by simp), unescapeHTMLAux_skip]
  rfl

/-- `unescapeHTML` at `\u003e`. -/
theorem unescapeHTML_gt (t : Str) :
    unescapeHTML ("\\u003e".toList ++ t) = '>' :: unescapeHTML t := by
  show unescapeHTMLAux ('\\' :: 'u' :: '0' :: '0' :: '3' :: 'e' :: t) 0 = _
  rw [unescapeHTMLAux, if_neg (by simp), if_neg (by simp), if_pos (by simp),
    unescapeHTMLAux_skip]
  rfl

/-- `unescapeHTML` where none of the three sequences starts. -/
theorem unescapeHTML_cons (x : Char) (xs : Str)
    (h1 : "\\u0026".toList.isPrefixOf (x :: xs) = false)
    (h2 : "\\u003c".toList.isPrefixOf (x :: xs) = false)
    (h3 : "\\u003e".toList.isPrefixOf (x :: xs) = false) :
    unescapeHTML (x :: xs) = x :: unescapeHTML xs := by
  unfold unescapeHTML
  rw [unescapeHTMLAux, h1, h2, h3]
  rfl

/-- The three replacements of `jsonMarshal`, one after the other, replace what
the one pass of `unescapeHTML` replaces. -/
theorem Replace3_eq_unescapeHTML :
    ∀ (n : Nat) (b : Str), b.length ≤ n →
      bytes.Replace (bytes.Replace (bytes.Replace b "\\u0026".toList "&".toList)
        "\\u003c".toList "<".toList) "\\u003e".toList ">".toList = unescapeHTML b
  | _, [], _ => rfl
  | 0, x :: xs, hn => by simp at hn
  | n + 1, x :: xs, hn => by
    have hlen : xs.length ≤ n := by simpa using hn
    cases h1 : "\\u0026".toList.isPrefixOf (x :: xs)
    · cases h2 : "\\u003c".toList.isPrefixOf (x :: xs)
      · cases h3 : "\\u003e".toList.isPrefixOf (x :: xs)
        · rw [unescapeHTML_cons x xs h1 h2 h3, ← Replace3_eq_unescapeHTML n xs hlen,
            bytes.Replace_cons_of_no_match _ _ _ _ h1]
          have k2 : "\\u003c".toList.isPrefixOf
              (x :: bytes.Replace xs "\\u0026".toList "&".toList) = false := by
            cases k : "\\u003c".toList.isPrefixOf
              (x :: bytes.Replace xs "\\u0026".toList "&".toList)
            · rfl
            · rw [← bytes.Replace_cons_of_no_match _ "&".toList _ _ h1] at k
              rw [bytes.isPrefixOf_of_isPrefixOf_Replace _ _ _ _ (by decide) k] at h2
              cases h2
          rw [bytes.Replace_cons_of_no_match _ _ _ _ k2]
          have k3 : "\\u003e".toList.isPrefixOf
              (x :: bytes.Replace (bytes.Replace xs "\\u0026".toList "&".toList)
                "\\u003c".toList "<".toList) = false := by
            cases k : "\\u003e".toList.isPrefixOf
              (x :: bytes.Replace (bytes.Replace xs "\\u0026".toList "&".toList)
                "\\u003c".toList "<".toList)
            · rfl
            · rw [← bytes.Replace_cons_of_no_match _ "<".toList _ _ k2] at k
              have k' := bytes.isPrefixOf_of_isPrefixOf_Replace _ _ _ _ (by decide) k
              rw [← bytes.Replace_cons_of_no_match _ "&".toList _ _ h1] at k'
              rw [bytes.isPrefixOf_of_isPrefixOf_Replace _ _ _ _ (by decide) k'] at h3
              cases h3
          rw [bytes.Replace_cons_of_no_match _ _ _ _ k3]
        · obtain ⟨t, ht⟩ := List.isPrefixOf_iff_prefix.1 h3
          have hlt : t.length ≤ n := by
            have := congrArg List.length ht
            simp at this
            omega
          rw [← ht, unescapeHTML_gt, ← Replace3_eq_unescapeHTML n t hlt, Replace_amp_over_gt,
            Replace_lt_over_gt, bytes.Replace_append _ _ _ (by decide)]
          rfl
      · obtain ⟨t, ht⟩ := List.isPrefixOf_iff_prefix.1 h2
        have hlt : t.length ≤ n := by
          have := congrArg List.length ht
          simp at this
          omega
        rw [← ht, unescapeHTML_lt, ← Replace3_eq_unescapeHTML n t hlt, Replace_amp_over_lt,
          bytes.Replace_append _ _ _ (by decide)]
        exact Replace_gt_over_lt _
    · obtain ⟨t, ht⟩ := List.isPrefixOf_iff_prefix.1 h1
      have hlt : t.length ≤ n := by
        have := congrArg List.length ht
        simp at this
        omega
      rw [← ht, unescapeHTML_amp, ← Replace3_eq_unescapeHTML n t hlt,
        bytes.Replace_append _ _ _ (by decide)]
      show bytes.Replace (bytes.Replace ('&' :: _) _ _) _ _ = _
      rw [Replace_lt_over_amp, Replace_gt_over_amp]
      rfl

/-- C10: for every value, the bytes `jsonMarshal` returns are the standard
encoding with the three replacements made one after the other; they are the
standard encoding with every occurrence of `\u0026`, `\u003c` and `\u003e`
replaced by `&`, `<` and `>` (`unescapeHTML`); the error is that of
`json.Marshal`; and none of the three sequences occurs in the bytes returned. -/
theorem jsonMarshal_unescapes {α : Type} (Marshal : α → Str × Option Error) (v : α) :
    (jsonMarshal Marshal v).1 =
        bytes.Replace (bytes.Replace (bytes.Replace (Marshal v).1 "\\u0026".toList "&".toList)
          "\\u003c".toList "<".toList) "\\u003e".toList ">".toList ∧
      (jsonMarshal Marshal v).1 = unescapeHTML (Marshal v).1 ∧
      (jsonMarshal Marshal v).2 = (Marshal v).2 ∧
      bytes.Contains "\\u0026".toList (jsonMarshal Marshal v).1 = false ∧
      bytes.Contains "\\u003c".toList (jsonMarshal Marshal v).1 = false ∧
      bytes.Contains "\\u003e".toList (jsonMarshal Marshal v).1 = false := by
  have h0 : (jsonMarshal Marshal v).1 =
      bytes.Replace (bytes.Replace (bytes.Replace (Marshal v).1 "\\u0026".toList "&".toList)
        "\\u003c".toList "<".toList) "\\u003e".toList ">".toList := rfl
  have hgt := bytes.not_Contains_Replace "\\u003e".toList '>' (by decide) (by decide) _
    (bytes.Replace (bytes.Replace (Marshal v).1 "\\u0026".toList "&".toList)
      "\\u003c".toList "<".toList) (le_refl _)
  have hlt := bytes.not_Contains_Replace "\\u003c".toList '<' (by decide) (by decide) _
    (bytes.Replace (Marshal v).1 "\\u0026".toList "&".toList) (le_refl _)
  have hamp := bytes.not_Contains_Replace "\\u0026".toList '&' (by decide) (by decide) _
    (Marshal v).1 (le_refl _)
  refine ⟨h0, h0.trans (Replace3_eq_unescapeHTML _ _ (le_refl _)), rfl, ?_, ?_, hgt⟩
  · rw [h0]
    cases h : bytes.Contains "\\u0026".toList
        (bytes.Replace (bytes.Replace (bytes.Replace (Marshal v).1 "\\u0026".toList "&".toList)
          "\\u003c".toList "<".toList) "\\u003e".toList ">".toList)
    · rfl
    · have h' := bytes.Contains_of_Contains_Replace "\\u003e".toList "\\u0026".toList '>'
        (by decide) (by decide) _ _ (le_refl _) h
      have h'' := bytes.Contains_of_Contains_Replace "\\u003c".toList "\\u0026".toList '<'
        (by decide) (by decide) _ _ (le_refl _) h'
      exact Bool.noConfusion (hamp.symm.trans h'')
  · rw [h0]
    cases h : bytes.Contains "\\u003c".toList
        (bytes.Replace (bytes.Replace (bytes.Replace (Marshal v).1 "\\u0026".toList "&".toList)
          "\\u003c".toList "<".toList) "\\u003e".toList ">".toList)
    · rfl
    · have h' := bytes.Contains_of_Contains_Replace "\\u003e".toList "\\u003c".toList '>'
        (by decide) (by decide) _ _ (le_refl _) h
      exact Bool.noConfusion (hlt.symm.trans h')

end stingray
